import Mathlib

/-!
Verification of the inert static-file serving plugin (hapijs/inert).

The definitions below are a shallow embedding of the current-generation
sources under `lib/` (`file.js`, `fs.js`, `etag.js`, `directory.js`).
Filesystem syscalls, the `ammo` range-header parser and other host
collaborators are passed in as explicit oracle arguments; every embedded
function also returns the list of filesystem events it performs, so that
claims about "no descriptor is opened" or "the descriptor is closed before
the error propagates" become statements about that event trace.
-/

namespace Inert

/-! ## Decimal / hexadecimal numerals (JS number stringification) -/

/-- The decimal digit character for `d` (defined by cases so that facts
about it are provable by `decide`). -/
def digitCh (d : Nat) : Char :=
  match d with
  | 0 => '0' | 1 => '1' | 2 => '2' | 3 => '3' | 4 => '4'
  | 5 => '5' | 6 => '6' | 7 => '7' | 8 => '8' | _ => '9'

/-- Numeric value of a decimal digit character. -/
def digitVal (c : Char) : Nat := c.toNat - 48

theorem digitVal_digitCh {d : Nat} (h : d < 10) : digitVal (digitCh d) = d := by
  interval_cases d <;> decide

theorem digitCh_mem (d : Nat) :
    digitCh d ∈ (['0', '1', '2', '3', '4', '5', '6', '7', '8', '9'] : List Char) := by
  match d with
  | 0 => decide | 1 => decide | 2 => decide | 3 => decide | 4 => decide
  | 5 => decide | 6 => decide | 7 => decide | 8 => decide
  | n + 9 =>
    have h : digitCh (n + 9) = '9' := rfl
    rw [h]; decide

theorem digitCh_ne_dash (d : Nat) : digitCh d ≠ '-' := by
  intro h
  have := digitCh_mem d
  rw [h] at this
  revert this
  decide

theorem digitCh_ne_lt (d : Nat) : digitCh d ≠ '<' := by
  intro h
  have := digitCh_mem d
  rw [h] at this
  revert this
  decide

theorem digitCh_ne_quot (d : Nat) : digitCh d ≠ '"' := by
  intro h
  have := digitCh_mem d
  rw [h] at this
  revert this
  decide

/-- Digit-producing loop for positive numbers. The first argument is
structural-recursion fuel (any value at least the number suffices), keeping
the definition kernel-reducible. -/
def natDigitsGo : Nat → Nat → List Char → List Char
  | 0, _, acc => acc
  | fuel + 1, n, acc =>
    if n = 0 then acc else natDigitsGo fuel (n / 10) (digitCh (n % 10) :: acc)

/-- Decimal digit list of a natural number (JS `String(n)` for integers). -/
def natDigits (n : Nat) : List Char :=
  if n = 0 then ['0'] else natDigitsGo n n []

/-- Decimal string of a natural number. -/
def natStr (n : Nat) : String := ⟨natDigits n⟩

theorem natDigitsGo_append (fuel : Nat) :
    ∀ (n : Nat) (acc : List Char),
      natDigitsGo fuel n acc = natDigitsGo fuel n [] ++ acc := by
  induction fuel with
  | zero => intro n acc; simp [natDigitsGo]
  | succ fuel ih =>
    intro n acc
    by_cases h : n = 0
    · simp [natDigitsGo, h]
    · rw [natDigitsGo, natDigitsGo, if_neg h, if_neg h, ih (n / 10),
        ih (n / 10) [digitCh (n % 10)]]
      simp

theorem mem_natDigitsGo {c : Char} {fuel : Nat} :
    ∀ {n : Nat}, c ∈ natDigitsGo fuel n [] → ∃ d, d < 10 ∧ c = digitCh d := by
  induction fuel with
  | zero => intro n h; simp [natDigitsGo] at h
  | succ fuel ih =>
    intro n h
    by_cases h0 : n = 0
    · simp [natDigitsGo, h0] at h
    · rw [natDigitsGo, if_neg h0, natDigitsGo_append] at h
      rcases List.mem_append.mp h with h1 | h2
      · exact ih h1
      · exact ⟨n % 10, Nat.mod_lt _ (by omega), by simpa using h2⟩

theorem mem_natDigits {c : Char} {n : Nat} :
    c ∈ natDigits n → ∃ d, d < 10 ∧ c = digitCh d := by
  unfold natDigits
  by_cases h : n = 0
  · simp [h]; intro hc; exact ⟨0, by omega, hc⟩
  · simp [h]; exact mem_natDigitsGo

theorem dash_not_mem_natDigits (n : Nat) : '-' ∉ natDigits n := by
  intro h
  obtain ⟨d, _, hd⟩ := mem_natDigits h
  exact digitCh_ne_dash d hd.symm

/-- Value of a digit list read as a decimal numeral. -/
def digitsVal (l : List Char) : Nat := l.foldl (fun a c => a * 10 + digitVal c) 0

theorem digitsVal_append_digit (l : List Char) (c : Char) :
    digitsVal (l ++ [c]) = digitsVal l * 10 + digitVal c := by
  simp [digitsVal, List.foldl_append]

theorem digitsVal_natDigitsGo (fuel : Nat) :
    ∀ n : Nat, n ≤ fuel → digitsVal (natDigitsGo fuel n []) = n := by
  induction fuel with
  | zero =>
    intro n hn
    have : n = 0 := by omega
    simp [this, natDigitsGo, digitsVal]
  | succ fuel ih =>
    intro n hn
    by_cases h0 : n = 0
    · simp [natDigitsGo, h0, digitsVal]
    · rw [natDigitsGo, if_neg h0, natDigitsGo_append, digitsVal_append_digit]
      have hdiv : n / 10 ≤ fuel := by
        have := Nat.div_lt_self (by omega : 0 < n) (by omega : 1 < 10)
        omega
      rw [ih (n / 10) hdiv, digitVal_digitCh (Nat.mod_lt _ (by omega))]
      omega

theorem digitsVal_natDigits (n : Nat) : digitsVal (natDigits n) = n := by
  unfold natDigits
  by_cases h : n = 0
  · simp [h]; decide
  · simp [h]; exact digitsVal_natDigitsGo n n (le_refl n)

theorem natDigits_injective : Function.Injective natDigits := by
  intro a b h
  have := digitsVal_natDigits a
  rw [h, digitsVal_natDigits] at this
  omega

/-- Digit list of an integer: a leading dash for negative values
(JS `String(n)` for integer-valued numbers). -/
def intDigits (m : Int) : List Char :=
  if m < 0 then '-' :: natDigits m.natAbs else natDigits m.toNat

/-- Decimal string of an integer. -/
def intStr (m : Int) : String := ⟨intDigits m⟩

theorem intDigits_injective : Function.Injective intDigits := by
  intro a b h
  unfold intDigits at h
  by_cases ha : a < 0 <;> by_cases hb : b < 0 <;> simp [ha, hb] at h
  · have := natDigits_injective h
    omega
  · -- a negative, b nonnegative: heads differ
    exfalso
    cases hd : natDigits b.toNat with
    | nil => rw [hd] at h; simp at h
    | cons c t =>
      rw [hd] at h
      have hc : '-' = c := ((List.cons.injEq _ _ _ _).mp h).1
      have hmem : c ∈ natDigits b.toNat := by rw [hd]; simp
      obtain ⟨d, _, hdc⟩ := mem_natDigits hmem
      exact digitCh_ne_dash d (by rw [← hdc]; exact hc.symm)
  · -- b negative, a nonnegative: heads differ
    exfalso
    cases hd : natDigits a.toNat with
    | nil => rw [hd] at h; simp at h
    | cons c t =>
      rw [hd] at h
      have hc : c = '-' := ((List.cons.injEq _ _ _ _).mp h).1
      have hmem : c ∈ natDigits a.toNat := by rw [hd]; simp
      obtain ⟨d, _, hdc⟩ := mem_natDigits hmem
      exact digitCh_ne_dash d (by rw [← hdc]; exact hc)
  · have := natDigits_injective h
    omega

/-- Splitting a concatenation at the first dash is unambiguous when neither
left part contains a dash. -/
theorem splitDash {x y u v : List Char} (hx : '-' ∉ x) (hy : '-' ∉ y)
    (h : x ++ '-' :: u = y ++ '-' :: v) : x = y ∧ u = v := by
  induction x generalizing y with
  | nil =>
    cases y with
    | nil => simpa using h
    | cons c t =>
      simp at h
      obtain ⟨hc, -⟩ := h
      exact absurd (by simp [← hc]) hy
  | cons c t ih =>
    cases y with
    | nil =>
      simp at h
      obtain ⟨hc, -⟩ := h
      exact absurd (by simp [hc]) hx
    | cons d s =>
      simp at h
      obtain ⟨hcd, hrest⟩ := h
      have := ih (fun hm => hx (by simp [hm])) (fun hm => hy (by simp [hm])) hrest
      exact ⟨by simp [hcd, this.1], this.2⟩

/-! ## POSIX path model (the `path` host collaborator used by `lib/file.js`)

`Path.isAbsolute`, `Path.normalize`, `Path.join` and `Path.resolve` from
Node's posix path module, restricted to the two-argument uses appearing in
the source. -/

/-- Split a character list at a separator character. -/
def splitCh (sep : Char) : List Char → List (List Char)
  | [] => [[]]
  | c :: rest =>
    match splitCh sep rest with
    | [] => [[]]
    | comp :: comps => if c = sep then [] :: comp :: comps else (c :: comp) :: comps

/-- `Path.isAbsolute` (posix): the path starts with `/`. -/
def isAbsolute (s : String) : Bool :=
  match s.toList with
  | c :: _ => c = '/'
  | [] => false

/-- Resolve `.` and `..` segments; `allowAbove` keeps leading `..` segments
(relative paths) while absolute paths drop them at the root. -/
def normSegs (segs : List (List Char)) (allowAbove : Bool) : List (List Char) :=
  (segs.foldl
    (fun stack seg =>
      if seg = [] ∨ seg = ['.'] then stack
      else if seg = ['.', '.'] then
        match stack with
        | [] => if allowAbove then [['.', '.']] else []
        | top :: rest =>
          if top = ['.', '.'] then (if allowAbove then ['.', '.'] :: stack else stack)
          else rest
      else seg :: stack)
    []).reverse

/-- Join path segments with `/` separators. -/
def joinSegs (segs : List (List Char)) : List Char :=
  (segs.intersperse ['/']).flatten

/-- `Path.normalize` (posix). -/
def pathNormalize (p : String) : String :=
  if p = "" then "." else
  let abs := isAbsolute p
  let trail := p.toList.getLast? = some '/'
  let out := joinSegs (normSegs (splitCh '/' p.toList) (!abs))
  if out = [] then (if abs then "/" else ".")
  else ⟨(if abs then '/' :: out else out) ++ (if trail then ['/'] else [])⟩

/-- `Path.join` (posix) on two arguments. -/
def pathJoin (a b : String) : String :=
  let joined := if a = "" then b else if b = "" then a else a ++ "/" ++ b
  if joined = "" then "." else pathNormalize joined

/-- `Path.resolve` (posix) on two arguments, assuming an absolute base as
hapi guarantees for `route.settings.files.relativeTo`. -/
def pathResolve (base conf : String) : String :=
  let p := if isAbsolute conf then conf else base ++ "/" ++ conf
  let out := joinSegs (normSegs (splitCh '/' p.toList) false)
  if out = [] then "/" else ⟨'/' :: out⟩

/-- `Path.basename` (posix): the last non-empty path segment. -/
def pathBasename (p : String) : String :=
  ⟨((splitCh '/' p.toList).filter (fun s => s ≠ [])).getLastD []⟩

/-! ## Filesystem model (`lib/fs.js` and `internals.openStat` of `lib/file.js`)

Syscall outcomes (`fs.open`, `fs.fstat`) are oracle arguments; each embedded
operation returns the syscall events it issued. -/

/-- A syscall-level error code as surfaced on Node `fs` errors. -/
inductive SysErr
  | ENOENT
  | EACCES
  | EPERM
  | other (code : String)
deriving DecidableEq, Repr

/-- The classified failures produced by this plugin (`boom` errors). -/
inductive Boom
  | notFound
  | forbidden (data : Option String)
  | internalErr (msg : String)
deriving DecidableEq, Repr

/-- The immutable result of `fstat`. -/
structure StatInfo where
  ino : Nat
  size : Nat
  mtimeMs : Int
  isDirectory : Bool
deriving DecidableEq, Repr

/-- Filesystem events performed by the embedded code. -/
inductive FsEvent
  | fsOpen (path : String)
  | fsFstat (fd : Nat)
  | fsClose (fd : Nat)
  | fsReaddir (path : String)
deriving DecidableEq, Repr

/-- The NUL character tested by `path.indexOf('\u0000')`. -/
def nulChar : Char := Char.ofNat 0

/-- `err.code` string of a syscall error (used for `Boom.forbidden` data). -/
def sysCode : SysErr → String
  | .ENOENT => "ENOENT"
  | .EACCES => "EACCES"
  | .EPERM => "EPERM"
  | .other c => c

/-- `exports.File.prototype.open` from `lib/fs.js`: issue the open, and on
failure classify it — NUL byte in the path or `ENOENT` gives `notFound`,
`EACCES`/`EPERM` gives `forbidden`, anything else an internal error. -/
def fileOpen (path : String) (openRes : Except SysErr Nat) :
    Except Boom Nat × List FsEvent :=
  match openRes with
  | .ok fd => (.ok fd, [.fsOpen path])
  | .error e =>
    if path.toList.contains nulChar ∨ e = SysErr.ENOENT then
      (.error .notFound, [.fsOpen path])
    else if e = SysErr.EACCES ∨ e = SysErr.EPERM then
      (.error (.forbidden (some (sysCode e))), [.fsOpen path])
    else
      (.error (.internalErr "Failed to open file"), [.fsOpen path])

/-- A `File` handle from `lib/fs.js`: a path plus an exclusively-owned
descriptor (`null` when not open or after ownership transfer). -/
structure FsFile where
  path : String
  fd : Option Nat
deriving DecidableEq, Repr

/-- `exports.File.prototype.stat` from `lib/fs.js`: `fstat` the descriptor;
a directory is a `forbidden EISDIR` failure and any failure closes the
handle before the error is thrown. -/
def fileStat (f : FsFile) (fstatRes : Except SysErr StatInfo) :
    FsFile × Except Boom StatInfo × List FsEvent :=
  match f.fd with
  | none => (f, .error (.internalErr "assertion failed"), [])
  | some fd =>
    match fstatRes with
    | .error _ =>
      ({ f with fd := none }, .error (.internalErr "Failed to stat file"),
        [.fsFstat fd, .fsClose fd])
    | .ok st =>
      if st.isDirectory then
        ({ f with fd := none }, .error (.forbidden (some "EISDIR")),
          [.fsFstat fd, .fsClose fd])
      else
        (f, .ok st, [.fsFstat fd])

/-- `internals.openStat` from `lib/file.js`: open then fstat, closing the
new descriptor when the fstat fails or reveals a directory. -/
def openStat (path : String) (openRes : Except SysErr Nat)
    (fstatRes : Nat → Except SysErr StatInfo) :
    Except Boom (Nat × StatInfo) × List FsEvent :=
  match openRes with
  | .error e =>
    if path.toList.contains nulChar ∨ e = SysErr.ENOENT then
      (.error .notFound, [.fsOpen path])
    else if e = SysErr.EACCES ∨ e = SysErr.EPERM then
      (.error (.forbidden (some (sysCode e))), [.fsOpen path])
    else
      (.error (.internalErr "Failed to open file"), [.fsOpen path])
  | .ok fd =>
    match fstatRes fd with
    | .error _ =>
      (.error (.internalErr "Failed to stat file"),
        [.fsOpen path, .fsFstat fd, .fsClose fd])
    | .ok st =>
      if st.isDirectory then
        (.error (.forbidden (some "EISDIR")), [.fsOpen path, .fsFstat fd, .fsClose fd])
      else
        (.ok (fd, st), [.fsOpen path, .fsFstat fd])

/-! ## JS text encoding collaborators

`encodeURIComponent` (the ECMAScript builtin) and `Hoek.escapeHtml` (the
hoek host library), modelled from their specified behaviour, plus
`internals.pathEncode` from `lib/directory.js` which composes them. -/

/-- Lowercase hexadecimal digit character. -/
def hexChL (d : Nat) : Char :=
  match d with
  | 0 => '0' | 1 => '1' | 2 => '2' | 3 => '3' | 4 => '4'
  | 5 => '5' | 6 => '6' | 7 => '7' | 8 => '8' | 9 => '9'
  | 10 => 'a' | 11 => 'b' | 12 => 'c' | 13 => 'd' | 14 => 'e' | _ => 'f'

/-- Uppercase hexadecimal digit character (percent-encoding uses these). -/
def hexChU (d : Nat) : Char :=
  match d with
  | 0 => '0' | 1 => '1' | 2 => '2' | 3 => '3' | 4 => '4'
  | 5 => '5' | 6 => '6' | 7 => '7' | 8 => '8' | 9 => '9'
  | 10 => 'A' | 11 => 'B' | 12 => 'C' | 13 => 'D' | 14 => 'E' | _ => 'F'

/-- Hexadecimal digit loop (JS `n.toString(16)`), fuelled like
`natDigitsGo` to stay kernel-reducible. -/
def natHexGo : Nat → Nat → List Char → List Char
  | 0, _, acc => acc
  | fuel + 1, n, acc =>
    if n = 0 then acc else natHexGo fuel (n / 16) (hexChL (n % 16) :: acc)

/-- JS `n.toString(16)` for a natural number. -/
def natHex (n : Nat) : List Char :=
  if n = 0 then ['0'] else natHexGo n n []

/-- `n.toString(16).padStart(2, '0')`. -/
def natHexPad2 (n : Nat) : List Char :=
  if n < 16 then '0' :: natHex n else natHex n

/-- The UTF-8 bytes of a character. -/
def utf8Bytes (c : Char) : List Nat :=
  let n := c.toNat
  if n < 128 then [n]
  else if n < 2048 then [192 + n / 64, 128 + n % 64]
  else if n < 65536 then [224 + n / 4096, 128 + (n / 64) % 64, 128 + n % 64]
  else [240 + n / 262144, 128 + (n / 4096) % 64, 128 + (n / 64) % 64, 128 + n % 64]

/-- A `%HH` escape (uppercase hex, as produced by `encodeURIComponent`). -/
def pctByte (b : Nat) : List Char := ['%', hexChU (b / 16), hexChU (b % 16)]

/-- Characters `encodeURIComponent` leaves unescaped:
`A-Z a-z 0-9 - _ . ! ~ * ' ( )`. -/
def uriUnreserved (c : Char) : Bool :=
  c.isAlpha ∨ c.isDigit ∨
    c ∈ ['-', '_', '.', '!', '~', '*', Char.ofNat 39, '(', ')']

/-- Modelled from the spec of the ECMAScript builtin `encodeURIComponent`
(a host collaborator, not part of this repository): unreserved characters
pass through, every other character is replaced by the `%HH` escapes of its
UTF-8 bytes. -/
def encodeURIComponent (s : String) : String :=
  ⟨(s.toList.map fun c =>
      if uriUnreserved c then [c] else (utf8Bytes c).map pctByte |>.flatten).flatten⟩

/-- Characters `Hoek.escapeHtml` passes through unescaped:
letters, digits, space, `.`, `,`, `-`, `:`, `_`. -/
def htmlSafe (c : Char) : Bool :=
  c.isAlpha ∨ c.isDigit ∨ c ∈ [' ', '.', ',', '-', ':', '_']

/-- Escape of one character under `Hoek.escapeHtml`. -/
def escapeHtmlChar (c : Char) : List Char :=
  if htmlSafe c then [c]
  else if c = '&' then "&amp;".toList
  else if c = '<' then "&lt;".toList
  else if c = '>' then "&gt;".toList
  else if c = '"' then "&quot;".toList
  else if c.toNat ≥ 256 then '&' :: '#' :: (natDigits c.toNat ++ [';'])
  else '&' :: '#' :: 'x' :: (natHexPad2 c.toNat ++ [';'])

/-- Modelled from the spec of `Hoek.escapeHtml` (a host collaborator, not
part of this repository): safe characters pass through; `& < > "` become
named entities; everything else becomes a numeric character reference. -/
def escapeHtml (s : String) : String :=
  ⟨(s.toList.map escapeHtmlChar).flatten⟩

/-- JS `String.prototype.replace` with a global pattern: non-overlapping
left-to-right replacement of `pat` by `rep`. -/
def replaceAll (l pat rep : List Char) : List Char :=
  match l with
  | [] => []
  | c :: rest =>
    if h : pat ≠ [] ∧ pat.isPrefixOf (c :: rest) then
      rep ++ replaceAll ((c :: rest).drop pat.length) pat rep
    else
      c :: replaceAll rest pat rep
  termination_by l.length
  decreasing_by
  · simp only [List.length_drop]
    have : pat.length ≠ 0 := by
      intro hlen
      exact h.1 (List.length_eq_zero.mp hlen)
    simp [List.length_cons]
    omega
  · simp [List.length_cons]

/-- `internals.pathEncode` from `lib/directory.js`:
`encodeURIComponent(path).replace(/%2F/g, '/').replace(/%5C/g, '\\')`. -/
def pathEncode (s : String) : String :=
  ⟨replaceAll (replaceAll (encodeURIComponent s).toList "%2F".toList ['/'])
    "%5C".toList ['\\']⟩

/-! ## `lib/file.js`: path confinement, preparation, ranges, marshalling -/

/-- Replace-or-insert a response header. -/
def setHeader (hs : List (String × String)) (k v : String) : List (String × String) :=
  (k, v) :: hs.filter (fun p => p.1 != k)

/-- The path computation of `exports.response`: with confinement enabled the
confine directory is resolved against the route's `relativeTo`; an absolute
request path is normalized, a relative one joined to the confine directory;
a result that does not start with the confine directory becomes `null`
(`none`). -/
def responsePath (relativeTo : String) (confine : Option String) (path : String) :
    Option String :=
  match confine with
  | some c =>
    let confineDir := pathResolve relativeTo c
    let p := if isAbsolute path then pathNormalize path else pathJoin confineDir path
    if confineDir.toList.isPrefixOf p.toList then some p else none
  | none =>
    some (if isAbsolute path then pathNormalize path else pathJoin relativeTo path)

/-- The `filename`/`mode` settings used for `content-disposition`. -/
structure PrepSettings where
  mode : Option String
  filename : Option String
deriving DecidableEq, Repr

/-- The response source state after `internals.prepare`. -/
structure PrepState where
  fd : Option Nat
  contentLength : Option Nat
  headers : List (String × String)
  etag : Option String
deriving DecidableEq, Repr

/-- `internals.prepare` from `lib/file.js`: a `null` path fails `forbidden`
with data `EACCES` before any filesystem access; otherwise the file is
opened and stat'ed, the content headers are set, and a failure of
`Etag.apply` closes the descriptor before the error is returned.
`mimeType` models the server's MIME lookup, `toUTC` the JS
`Date.prototype.toUTCString`, and `etagApply` the outcome of `Etag.apply`
(`ok` carrying the etag it set, if any). -/
def prepare (pathOpt : Option String) (settings : PrepSettings)
    (headers0 : List (String × String))
    (openRes : Except SysErr Nat) (fstatRes : Nat → Except SysErr StatInfo)
    (mimeType : Option String) (toUTC : Int → String)
    (etagApply : Except Boom (Option String)) :
    PrepState × Except Boom Unit × List FsEvent :=
  match pathOpt with
  | none =>
    ({ fd := none, contentLength := none, headers := headers0, etag := none },
      .error (.forbidden (some "EACCES")), [])
  | some path =>
    match openStat path openRes fstatRes with
    | (.error e, evts) =>
      ({ fd := none, contentLength := none, headers := headers0, etag := none },
        .error e, evts)
    | (.ok (fd, st), evts) =>
      let h1 := if (headers0.lookup "content-type").isNone then
                  setHeader headers0 "content-type"
                    (mimeType.getD "application/octet-stream")
                else headers0
      let h2 := setHeader h1 "last-modified" (toUTC st.mtimeMs)
      let h3 := match settings.mode with
                | none => h2
                | some m =>
                  setHeader h2 "content-disposition"
                    (m ++ "; filename=" ++
                      encodeURIComponent (settings.filename.getD (pathBasename path)))
      match etagApply with
      | .error err =>
        ({ fd := none, contentLength := some st.size, headers := h3, etag := none },
          .error err, evts ++ [.fsClose fd])
      | .ok etagOpt =>
        ({ fd := some fd, contentLength := some st.size, headers := h3,
           etag := etagOpt }, .ok (), evts)

/-- A single byte range `{ from, to }` (both inclusive) as produced by
`Ammo.header`. -/
structure RangeSpec where
  rFrom : Nat
  rTo : Nat
deriving DecidableEq, Repr

/-- The request/route context consulted by `internals.addContentRange`. -/
structure RangeReq where
  rangesEnabled : Bool
  rangeHeader : Option String
  ifRange : Option String
  compression : Bool
  compressible : Bool
  acceptEncoding : Option String
deriving DecidableEq, Repr

/-- The mutable response state threaded through marshalling. -/
structure RespState where
  path : String
  fd : Option Nat
  code : Nat
  contentLength : Option Nat
  etag : Option String
  headers : List (String × String)
deriving DecidableEq, Repr

/-- A boom error carrying explicit output headers (the 416 of
`internals.addContentRange`). -/
structure BoomOut where
  status : Nat
  outHeaders : List (String × String)
deriving DecidableEq, Repr

/-- `internals.addContentRange` from `lib/file.js`. `ammo` is the
`Ammo.header` collaborator: the parse of a range header against a known
content length, `none` on parse failure/unsatisfiable. -/
def addContentRange (ammo : String → Nat → Option (List RangeSpec))
    (req : RangeReq) (st : RespState) :
    Except BoomOut (RespState × Option RangeSpec) :=
  if req.rangesEnabled then
    let inner : Except BoomOut (RespState × Option RangeSpec) :=
      match req.rangeHeader, st.contentLength with
      | some rh, some L =>
        if L ≠ 0 then
          if req.ifRange = none ∨ req.ifRange = st.etag then
            let encoding := if req.compression ∧ req.compressible ∧
                (st.headers.lookup "content-encoding").isNone then
                  req.acceptEncoding
                else none
            if encoding = some "identity" ∨ encoding = none then
              match ammo rh L with
              | none =>
                .error ⟨416, [("content-range", "bytes */" ++ natStr L)]⟩
              | some [r] =>
                .ok ({ st with
                        code := 206,
                        contentLength := some (r.rTo - r.rFrom + 1),
                        headers := setHeader st.headers "content-range"
                          ("bytes " ++ natStr r.rFrom ++ "-" ++ natStr r.rTo ++
                            "/" ++ natStr L) }, some r)
              | some _ => .ok (st, none)
            else .ok (st, none)
          else .ok (st, none)
        else .ok (st, none)
      | _, _ => .ok (st, none)
    match inner with
    | .error e => .error e
    | .ok (st', r) =>
      .ok ({ st' with headers := setHeader st'.headers "accept-ranges" "bytes" }, r)
  else .ok (st, none)

/-- The options handed to `Fs.createReadStream`. -/
structure StreamOpts where
  fdesc : Nat
  start : Nat
  stop : Option Nat
deriving DecidableEq, Repr

/-- Failure of marshalling: a boom error or the `Hoek.assert` on a missing
descriptor. -/
inductive MarshalFail
  | boomOut (b : BoomOut)
  | assertFailed
deriving DecidableEq, Repr

/-- `internals.openStream` from `lib/file.js`: negotiate the range, build
the stream options (`start`/`end` from the range, default start 0), and
transfer descriptor ownership to the stream. -/
def openStream (ammo : String → Nat → Option (List RangeSpec)) (req : RangeReq)
    (st : RespState) (path : String) :
    Except MarshalFail (RespState × String × StreamOpts) :=
  match st.fd with
  | none => .error .assertFailed
  | some fd =>
    match addContentRange ammo req st with
    | .error b => .error (.boomOut b)
    | .ok (st', rOpt) =>
      let opts : StreamOpts :=
        match rOpt with
        | some r => { fdesc := fd, start := r.rFrom, stop := some r.rTo }
        | none => { fdesc := fd, start := 0, stop := none }
      .ok ({ st' with fd := none }, path, opts)

/-- `internals.close` from `lib/file.js`: close the owned descriptor, if
any (idempotent). -/
def respClose (st : RespState) : RespState × List FsEvent :=
  match st.fd with
  | some fd => ({ st with fd := none }, [.fsClose fd])
  | none => (st, [])

/-- `internals.marshal` from `lib/file.js`: when compressed lookup is off,
compression is disabled or the request does not accept gzip, stream the
primary file; otherwise try to open the `.gz` sibling — on failure fall
back to the primary file, on success close the primary descriptor, adopt
the sibling's descriptor and size, and set the gzip encoding headers. -/
def marshal (lookupCompressed : Bool) (ammo : String → Nat → Option (List RangeSpec))
    (req : RangeReq) (gzOpenRes : Except SysErr Nat)
    (gzFstatRes : Nat → Except SysErr StatInfo) (st : RespState) :
    Except MarshalFail (RespState × String × StreamOpts) × List FsEvent :=
  if ¬lookupCompressed ∨ ¬req.compression ∨ req.acceptEncoding ≠ some "gzip" then
    (openStream ammo req st st.path, [])
  else
    let gzFile := st.path ++ ".gz"
    match openStat gzFile gzOpenRes gzFstatRes with
    | (.error _, evG) => (openStream ammo req st st.path, evG)
    | (.ok (gzFd, gzStat), evG) =>
      let (closed, closeEvts) := respClose st
      let st2 := { closed with
                    fd := some gzFd,
                    contentLength := some gzStat.size,
                    headers := setHeader
                      (setHeader closed.headers "content-encoding" "gzip")
                      "vary" "accept-encoding" }
      (openStream ammo req st2 gzFile, evG ++ closeEvts)

/-! ## `lib/etag.js`: fingerprint cache key and coalesced hashing

`internals.computeHashed` keys its LRU cache on `[path, stat.ino,
stat.size, stat.mtime.getTime()].join('-')` and coalesces concurrent
computations through a pending table. The asynchronous behaviour is
embedded as a state machine: a request arrives (synchronously consulting
the cache and the pending table and, on a miss, registering the pending
entry before any suspension point, as the code does), and an in-flight
computation completes with some outcome, storing a success, deleting the
pending entry and only then releasing every waiter with that one shared
outcome. -/

/-- The LRU cache key of `internals.computeHashed`:
`[path, stat.ino, stat.size, stat.mtime.getTime()].join('-')`. -/
def cachekey (path : String) (ino size : Nat) (mtimeMs : Int) : String :=
  path ++ "-" ++ natStr ino ++ "-" ++ natStr size ++ "-" ++ intStr mtimeMs

/-- Outcome of one hash computation, shared by all of its waiters. -/
inductive HOutcome
  | ok (etag : String)
  | failed (err : String)
deriving DecidableEq, Repr

/-- Observable events of the fingerprinting machine. -/
inductive HEvent
  | hit (rid : Nat) (etag : String)
  | joined (rid : Nat) (key : String)
  | started (rid : Nat) (key : String)
  | stored (key : String) (etag : String)
  | removed (key : String)
  | resolved (rid : Nat) (out : HOutcome)
deriving DecidableEq, Repr

/-- Actions driving the machine: a request arriving for a key, or the
in-flight computation for a key completing with an outcome. -/
inductive HAction
  | arrive (rid : Nat) (key : String)
  | complete (key : String) (out : HOutcome)
deriving DecidableEq, Repr

/-- State of the fingerprint cache plus pending-computation table. -/
structure HState where
  cache : List (String × String)
  pending : List String
  waiters : List (Nat × String)
  trace : List HEvent
deriving DecidableEq, Repr

/-- `etags.set` (insert-or-update of the LRU cache, eviction elided). -/
def cacheSet (cache : List (String × String)) (k v : String) :
    List (String × String) :=
  (k, v) :: cache.filter (fun p => decide (p.1 ≠ k))

/-- One step of `internals.computeHashed`. An arrival finding a cached etag
resolves at once with no computation; an arrival finding a pending entry
joins it; otherwise the arrival registers the pending entry and starts the
hash. A completion stores a successful hash, deletes the pending entry and
only then resolves every waiter of the key with the one shared outcome. -/
def hstep (s : HState) (a : HAction) : HState :=
  match a with
  | .arrive rid key =>
    match s.cache.lookup key with
    | some e => { s with trace := s.trace ++ [.hit rid e] }
    | none =>
      if key ∈ s.pending then
        { s with waiters := s.waiters ++ [(rid, key)],
                 trace := s.trace ++ [.joined rid key] }
      else
        { s with pending := key :: s.pending,
                 waiters := s.waiters ++ [(rid, key)],
                 trace := s.trace ++ [.started rid key] }
  | .complete key out =>
    if key ∈ s.pending then
      { cache :=
          match out with
          | .ok e => cacheSet s.cache key e
          | .failed _ => s.cache,
        pending := s.pending.filter (fun k => decide (k ≠ key)),
        waiters := s.waiters.filter (fun w => decide (w.2 ≠ key)),
        trace := s.trace ++
          (match out with
            | .ok e => [.stored key e]
            | .failed _ => []) ++ [.removed key] ++
          ((s.waiters.filter (fun w => decide (w.2 = key))).map
            (fun w => .resolved w.1 out)) }
    else s

/-- The machine's initial state: empty cache, no pending computations. -/
def hinit : HState := { cache := [], pending := [], waiters := [], trace := [] }

/-- Run of the machine over a list of actions. -/
def hrun (as : List HAction) : HState := as.foldl hstep hinit

/-- Does this event record the start of a hash computation for `key`? -/
def isStartedFor (key : String) : HEvent → Bool
  | .started _ k => decide (k = key)
  | _ => false

/-- Number of hash computations started for `key` in a trace. -/
def startedCount (key : String) (tr : List HEvent) : Nat :=
  tr.countP (isStartedFor key)

/-- Does this action complete a computation for `key`? -/
def isCompleteFor (key : String) : HAction → Bool
  | .complete k _ => decide (k = key)
  | _ => false

theorem startedCount_append (key : String) (a b : List HEvent) :
    startedCount key (a ++ b) = startedCount key a + startedCount key b := by
  simp [startedCount, List.countP_append]

/-- The at-most-one-computation invariant preserved by every step other than
a completion for the key. -/
def StartInv (key : String) (s : HState) : Prop :=
  startedCount key s.trace ≤ 1 ∧
    (startedCount key s.trace = 1 → key ∈ s.pending)

@[simp] theorem isStartedFor_hit (key : String) (rid : Nat) (e : String) :
    isStartedFor key (.hit rid e) = false := rfl

@[simp] theorem isStartedFor_joined (key : String) (rid : Nat) (k : String) :
    isStartedFor key (.joined rid k) = false := rfl

@[simp] theorem isStartedFor_started (key : String) (rid : Nat) (k : String) :
    isStartedFor key (.started rid k) = decide (k = key) := rfl

@[simp] theorem isStartedFor_stored (key : String) (k e : String) :
    isStartedFor key (.stored k e) = false := rfl

@[simp] theorem isStartedFor_removed (key : String) (k : String) :
    isStartedFor key (.removed k) = false := rfl

@[simp] theorem isStartedFor_resolved (key : String) (rid : Nat) (out : HOutcome) :
    isStartedFor key (.resolved rid out) = false := rfl

theorem hstep_startInv {key : String} {s : HState} {a : HAction}
    (hnc : isCompleteFor key a = false) (hinv : StartInv key s) :
    StartInv key (hstep s a) := by
  obtain ⟨h1, h2⟩ := hinv
  unfold StartInv at *
  match a with
  | .arrive rid k =>
    simp only [hstep]
    cases hc : s.cache.lookup k with
    | some e =>
      refine ⟨?_, ?_⟩
      · simpa [startedCount, List.countP_append] using h1
      · intro hcount
        exact h2 (by simpa [startedCount, List.countP_append] using hcount)
    | none =>
      by_cases hp : k ∈ s.pending
      · simp only [hp, if_true]
        refine ⟨?_, ?_⟩
        · simpa [startedCount, List.countP_append] using h1
        · intro hcount
          exact h2 (by simpa [startedCount, List.countP_append] using hcount)
      · simp only [hp, if_false]
        by_cases hkey : k = key
        · subst hkey
          have hzero : startedCount k s.trace = 0 := by
            rcases Nat.lt_or_ge (startedCount k s.trace) 1 with h | h
            · omega
            · exact absurd (h2 (by omega)) hp
          refine ⟨?_, ?_⟩
          · rw [startedCount, List.countP_append]
            have hz : List.countP (isStartedFor k) s.trace = 0 := hzero
            rw [hz]
            simp [List.countP_cons]
          · intro _
            exact List.mem_cons_self _ _
        · refine ⟨?_, ?_⟩
          · simpa [startedCount, List.countP_append, List.countP_cons, hkey] using h1
          · intro hcount
            refine List.mem_cons_of_mem _ (h2 ?_)
            simpa [startedCount, List.countP_append, List.countP_cons, hkey]
              using hcount
  | .complete k out =>
    have hkne : k ≠ key := by
      intro hk
      simp [isCompleteFor, hk] at hnc
    simp only [hstep]
    by_cases hp : k ∈ s.pending
    · simp only [hp, if_true]
      have hres : List.countP (isStartedFor key)
          ((s.waiters.filter (fun w => decide (w.2 = k))).map
            (fun w => HEvent.resolved w.1 out)) = 0 := by
        rw [List.countP_eq_zero]
        intro e he
        obtain ⟨w, -, hw⟩ := List.mem_map.mp he
        simp [← hw]
      cases out with
      | ok etag =>
        refine ⟨?_, ?_⟩
        · simpa [startedCount, List.countP_append, List.countP_cons, hkne, hres]
            using h1
        · intro hcount
          have hmem := h2 (by
            simpa [startedCount, List.countP_append, List.countP_cons, hkne, hres]
              using hcount)
          exact List.mem_filter.mpr ⟨hmem, by simp [Ne.symm hkne]⟩
      | failed err =>
        refine ⟨?_, ?_⟩
        · simpa [startedCount, List.countP_append, List.countP_cons, hkne, hres]
            using h1
        · intro hcount
          have hmem := h2 (by
            simpa [startedCount, List.countP_append, List.countP_cons, hkne, hres]
              using hcount)
          exact List.mem_filter.mpr ⟨hmem, by simp [Ne.symm hkne]⟩
    · simp only [hp, if_false]
      exact ⟨h1, h2⟩

theorem foldl_startInv (key : String) (as : List HAction) (s : HState)
    (hs : StartInv key s) (hnc : ∀ a ∈ as, isCompleteFor key a = false) :
    StartInv key (as.foldl hstep s) := by
  induction as generalizing s with
  | nil => simpa using hs
  | cons a t ih =>
    rw [List.foldl_cons]
    exact ih (hstep s a) (hstep_startInv (hnc a (by simp)) hs)
      (fun b hb => hnc b (by simp [hb]))

/-! ## `lib/directory.js`: the directory handler

Hidden-name test, candidate-directory iteration and the listing renderer.
`File.load` outcomes are an oracle (`load`), keyed by the `confine` base
directory and the path handed to it, and all `File.load` / `readdir`
activity is returned as an event trace. -/

/-- Is this character a path separator (`/` or `\\`)? -/
def isSlash (c : Char) : Bool := c == '/' || c == '\\'

/-- Does a hidden-name match of `internals.isFileHidden`'s regular
expression start at the head of this character list? After a component
boundary the pattern is `\.([^.\\\/]|\.[^\\\/])`: a dot followed either by a
character that is not a dot and not a separator, or by a second dot that is
followed by a non-separator character. -/
def hiddenAt (l : List Char) : Bool :=
  match l with
  | a :: b :: rest =>
    a == '.' &&
      (if b = '.' then
        (match rest with
          | e :: _ => !isSlash e
          | [] => false)
      else !isSlash b)
  | _ => false

/-- Scan for a separator followed by a hidden-name match. -/
def hiddenTail : List Char → Bool
  | [] => false
  | c :: rest => (isSlash c && hiddenAt rest) || hiddenTail rest

/-- `internals.isFileHidden` from `lib/directory.js`:
`/(^|[\\\/])\.([^.\\\/]|\.[^\\\/])/.test(path)` — the pattern may match at the
start of the string or after any separator. -/
def isFileHidden (s : String) : Bool :=
  hiddenAt s.toList || hiddenTail s.toList

/-- The path components of a character list, split at separators. -/
def componentsCh : List Char → List (List Char)
  | [] => [[]]
  | c :: rest =>
    match componentsCh rest with
    | [] => [[]]
    | comp :: comps => if isSlash c then [] :: comp :: comps else (c :: comp) :: comps

/-- A component that begins with a dot and is neither the bare `.` nor the
bare `..` directory navigation. -/
def dotComponent : List Char → Bool
  | [] => false
  | c :: t => c == '.' && decide (t ≠ []) && decide (t ≠ ['.'])

/-- The specification's hidden-name test: some path component begins with
`.`, excluding bare `.` and `..`. -/
def specHidden (s : String) : Bool :=
  (componentsCh s.toList).any dotComponent

theorem componentsCh_ne_nil (l : List Char) : componentsCh l ≠ [] := by
  cases l with
  | nil => simp [componentsCh]
  | cons c rest =>
    simp only [componentsCh]
    cases componentsCh rest with
    | nil => simp
    | cons comp comps => by_cases h : isSlash c <;> simp [h]

theorem dotComponent_shape {comp : List Char} (h : dotComponent comp = true) :
    ∃ rest, comp = '.' :: rest ∧ rest ≠ [] ∧ rest ≠ ['.'] := by
  cases comp with
  | nil => simp [dotComponent] at h
  | cons c t =>
    simp only [dotComponent, Bool.and_eq_true, beq_iff_eq, decide_eq_true_eq] at h
    exact ⟨t, by simp [h.1.1], h.1.2, h.2⟩

/-- The first component is a separator-free prefix of the list, ending at
the list's end or at a separator. -/
theorem componentsCh_head_decomp (l : List Char) :
    ∃ comp comps r, componentsCh l = comp :: comps ∧ l = comp ++ r ∧
      (∀ x ∈ comp, isSlash x = false) ∧
      (r = [] ∨ ∃ d r2, r = d :: r2 ∧ isSlash d = true) := by
  induction l with
  | nil => exact ⟨[], [], [], by simp [componentsCh], by simp, by simp, .inl rfl⟩
  | cons c rest ih =>
    obtain ⟨comp, comps, r, hcs, hdec, hchars, hend⟩ := ih
    by_cases hs : isSlash c
    · refine ⟨[], comp :: comps, c :: rest, ?_, by simp, by simp,
        .inr ⟨c, rest, rfl, hs⟩⟩
      simp [componentsCh, hcs, hs]
    · refine ⟨c :: comp, comps, r, ?_, by simp [hdec], ?_, hend⟩
      · simp [componentsCh, hcs, hs]
      · intro x hx
        rcases List.mem_cons.mp hx with h | h
        · rw [h]
          exact Bool.eq_false_iff.mpr hs
        · exact hchars x h

/-- A proper dot-component at the head of the component list makes the
regex match at the head of the string. -/
theorem hiddenAt_of_head_dot {l : List Char} {comp : List Char}
    {comps : List (List Char)} (hcs : componentsCh l = comp :: comps)
    (h : dotComponent comp = true) : hiddenAt l = true := by
  obtain ⟨comp2, comps2, r, hcs2, hdec, hchars, hend⟩ := componentsCh_head_decomp l
  have hceq : comp2 = comp := by
    rw [hcs] at hcs2
    exact ((List.cons.injEq _ _ _ _).mp hcs2).1.symm
  subst hceq
  obtain ⟨rest, hcomp, hne, hnedot⟩ := dotComponent_shape h
  rw [hcomp] at hdec hchars
  cases rest with
  | nil => exact absurd rfl hne
  | cons b t =>
    have hb : isSlash b = false := hchars b (by simp)
    by_cases hbdot : b = '.'
    · subst hbdot
      cases t with
      | nil => exact absurd rfl hnedot
      | cons e t2 =>
        have he : isSlash e = false := hchars e (by simp)
        rw [hdec]
        simp [hiddenAt, he]
    · rw [hdec]
      cases t with
      | nil =>
        rcases hend with hr | ⟨d, r2, hr, hds⟩
        · subst hr
          simp [hiddenAt, hb, hbdot]
        · subst hr
          simp [hiddenAt, hb, hbdot]
      | cons e t2 =>
        simp [hiddenAt, hb, hbdot]

/-- A proper dot-component after the first separator makes the regex match
after some separator. -/
theorem hiddenTail_of_tail_dot {l : List Char} {comp : List Char}
    {comps : List (List Char)} (hcs : componentsCh l = comp :: comps)
    (h : comps.any dotComponent = true) : hiddenTail l = true := by
  induction l generalizing comp comps with
  | nil =>
    simp [componentsCh] at hcs
    rw [hcs.2] at h
    simp at h
  | cons c rest ih =>
    obtain ⟨hd, tl, hcr⟩ : ∃ hd tl, componentsCh rest = hd :: tl := by
      cases hcc : componentsCh rest with
      | nil => exact absurd hcc (componentsCh_ne_nil rest)
      | cons a b => exact ⟨a, b, rfl⟩
    by_cases hs : isSlash c
    · have : componentsCh (c :: rest) = [] :: hd :: tl := by
        simp [componentsCh, hcr, hs]
      rw [this] at hcs
      obtain ⟨hc1, hc2⟩ := (List.cons.injEq _ _ _ _).mp hcs
      rw [← hc2] at h
      simp only [List.any_cons, Bool.or_eq_true] at h
      rcases h with h | h
      · have := hiddenAt_of_head_dot hcr h
        simp [hiddenTail, hs, this]
      · have := ih hcr h
        simp [hiddenTail, this]
    · have : componentsCh (c :: rest) = (c :: hd) :: tl := by
        simp [componentsCh, hcr, hs]
      rw [this] at hcs
      obtain ⟨hc1, hc2⟩ := (List.cons.injEq _ _ _ _).mp hcs
      rw [← hc2] at h
      have := ih hcr h
      simp [hiddenTail, this]

/-- The specification's component-wise hidden test implies the code's
regex-based `internals.isFileHidden`. -/
theorem isFileHidden_of_specHidden {s : String} (h : specHidden s = true) :
    isFileHidden s = true := by
  unfold specHidden at h
  obtain ⟨hd, tl, hcs⟩ : ∃ hd tl, componentsCh s.toList = hd :: tl := by
    cases hcc : componentsCh s.toList with
    | nil => exact absurd hcc (componentsCh_ne_nil s.toList)
    | cons a b => exact ⟨a, b, rfl⟩
  rw [hcs] at h
  simp only [List.any_cons, Bool.or_eq_true] at h
  rcases h with h | h
  · have := hiddenAt_of_head_dot hcs h
    unfold isFileHidden
    rw [this]
    simp
  · have := hiddenTail_of_tail_dot hcs h
    unfold isFileHidden
    rw [this]
    simp

/-- Events performed by the directory handler. -/
inductive DirEvent
  | load (baseDir : String) (path : String)
  | readdir (dir : String)
deriving DecidableEq, Repr

/-- Directory-handler settings after schema validation and defaulting
(`redirectToSlash` models `settings.redirectToSlash !== false`, and
`indexNames` the defaulted index list). -/
structure DirSettings where
  showHidden : Bool
  listing : Bool
  redirectToSlash : Bool
  defaultExtension : Option String
  indexNames : List String
deriving DecidableEq, Repr

/-- A successful directory-handler response. -/
inductive DirOutcome
  | served (baseDir path : String)
  | redirect (location : String)
  | listed (dir : String)
deriving DecidableEq, Repr

/-- Outcome of one `File.load` call: success, or a boom error described by
its HTTP status code and `err.data`. -/
def LoadResult := Except (Nat × Option String) Unit

/-- The index-file loop of the directory handler: serve the first index
name that loads; a non-404 failure of an index candidate is a hard 500. -/
def tryIndexes (load : String → String → LoadResult) (baseDir dirPath : String) :
    List String → Except Nat (Option DirOutcome) × List DirEvent
  | [] => (.ok none, [])
  | indexName :: rest =>
    let indexFile := pathJoin dirPath indexName
    match load baseDir indexFile with
    | .ok _ => (.ok (some (.served baseDir indexFile)), [.load baseDir indexFile])
    | .error (status, _) =>
      if status = 404 then
        let (res, ev) := tryIndexes load baseDir dirPath rest
        (res, .load baseDir indexFile :: ev)
      else (.error 500, [.load baseDir indexFile])

/-- The per-candidate-directory body of the handler in `lib/directory.js`
(the `each` closure): try the selection as a file; on 404 optionally retry
with the default extension, else move on; on a non-`EISDIR` error
propagate; on a directory, fail 403 when neither indexes nor listing are
configured, redirect to the slash form when applicable, try index files,
and finally list the directory or fail 403. -/
def eachDir (load : String → String → LoadResult) (settings : DirSettings)
    (selection resource : String) (hasTrailingSlash stripTrailingSlash : Bool)
    (baseDir : String) : Except Nat (Option DirOutcome) × List DirEvent :=
  let path := selection
  match load baseDir path with
  | .ok _ => (.ok (some (.served baseDir path)), [.load baseDir path])
  | .error (status, data) =>
    let ev0 := [DirEvent.load baseDir path]
    if status = 404 then
      match settings.defaultExtension with
      | none => (.ok none, ev0)
      | some ext =>
        let p2 := (if hasTrailingSlash then path.dropRight 1 else path) ++ "." ++ ext
        match load baseDir p2 with
        | .ok _ => (.ok (some (.served baseDir p2)), ev0 ++ [.load baseDir p2])
        | .error _ => (.ok none, ev0 ++ [.load baseDir p2])
    else if status ≠ 403 ∨ data ≠ some "EISDIR" then
      (.error status, ev0)
    else if settings.indexNames = [] ∧ ¬settings.listing then
      (.error 403, ev0)
    else if settings.redirectToSlash ∧ ¬stripTrailingSlash ∧ ¬hasTrailingSlash then
      (.ok (some (.redirect (resource ++ "/"))), ev0)
    else
      match tryIndexes load baseDir path settings.indexNames with
      | (.error s, ev1) => (.error s, ev0 ++ ev1)
      | (.ok (some o), ev1) => (.ok (some o), ev0 ++ ev1)
      | (.ok none, ev1) =>
        if ¬settings.listing then (.error 403, ev0 ++ ev1)
        else (.ok (some (.listed (pathJoin baseDir path))),
          ev0 ++ ev1 ++ [.readdir (pathJoin baseDir path)])

/-- Iteration over the candidate base directories: a candidate yielding no
response moves to the next; exhausting all candidates is a 404. -/
def dirHandlerGo (load : String → String → LoadResult) (settings : DirSettings)
    (selection resource : String) (hasTrailingSlash stripTrailingSlash : Bool) :
    List String → Except Nat DirOutcome × List DirEvent
  | [] => (.error 404, [])
  | b :: rest =>
    match eachDir load settings selection resource hasTrailingSlash
        stripTrailingSlash b with
    | (.error s, ev) => (.error s, ev)
    | (.ok (some o), ev) => (.ok o, ev)
    | (.ok none, ev) =>
      let (res, ev2) := dirHandlerGo load settings selection resource
        hasTrailingSlash stripTrailingSlash rest
      (res, ev ++ ev2)

/-- The directory handler of `lib/directory.js` (current generation): a
non-empty selection that is hidden and not allowed by `showHidden` fails
404 before any candidate directory is consulted; otherwise the candidate
directories are tried in order. -/
def dirHandler (load : String → String → LoadResult) (settings : DirSettings)
    (paths : List String) (selection resource : String)
    (hasTrailingSlash stripTrailingSlash : Bool) :
    Except Nat DirOutcome × List DirEvent :=
  if selection ≠ "" ∧ ¬settings.showHidden ∧ isFileHidden selection then
    (.error 404, [])
  else
    dirHandlerGo load settings selection resource hasTrailingSlash
      stripTrailingSlash paths

/-- JS `String.prototype.lastIndexOf(char, fromIndex)`: the largest index
`≤ fromIndex` holding `c`, `-1` if none (a negative `fromIndex` only
admits index 0). -/
def jsLastIndexOf (l : List Char) (c : Char) (fromIdx : Int) : Int :=
  let limit : Nat := if fromIdx < 0 then 0 else min fromIdx.toNat (l.length - 1)
  match ((List.range (limit + 1)).filter (fun i => l.get? i = some c)).getLast? with
  | some i => (i : Int)
  | none => -1

/-- JS `String.prototype.substring(0, end)` (negative `end` clamps to 0). -/
def jsSubstringTo (l : List Char) (endIdx : Int) : List Char :=
  l.take endIdx.toNat

/-- `internals.generateListing` of `lib/directory.js` after a successful
`readdir`: the HTML assembly. `decode` models `decodeURIComponent`,
`files` the `readdir` result. The displayed location and entry names pass
through `Hoek.escapeHtml`; link targets pass through
`internals.pathEncode`. -/
def generateListing (decode : String → String) (resource selection : String)
    (hasTrailingSlash showHidden : Bool) (files : List String) : String :=
  let res := decode resource
  let display := escapeHtml res
  let html0 := "<html><head><title>" ++ display ++
    "</title></head><body><h1>Directory: " ++ display ++ "</h1><ul>"
  let html1 :=
    if selection ≠ "" then
      let parentIdx := jsLastIndexOf res.toList '/'
        ((res.length : Int) - (if hasTrailingSlash then 2 else 1))
      let parent := String.mk (jsSubstringTo res.toList parentIdx) ++ "/"
      html0 ++ "<li><a href=\"" ++ pathEncode parent ++
        "\">Parent Directory</a></li>"
    else html0
  let html2 := files.foldl (fun html file =>
    if showHidden ∨ ¬isFileHidden file then
      html ++ "<li><a href=\"" ++
        pathEncode (res ++ (if selection ≠ "" ∧ ¬hasTrailingSlash then "/" else "")
          ++ file) ++
        "\">" ++ escapeHtml file ++ "</a></li>"
    else html) html1
  html2 ++ "</ul></body></html>"

/-! ## Character-set facts about the encoders

`escapeHtml`, `encodeURIComponent` and `pathEncode` never emit a raw `<`
or `"`; these lemmas drive the listing-injection theorem. -/

theorem hexChL_benign (d : Nat) : hexChL d ≠ '<' ∧ hexChL d ≠ '"' := by
  match d with
  | 0 => decide | 1 => decide | 2 => decide | 3 => decide | 4 => decide
  | 5 => decide | 6 => decide | 7 => decide | 8 => decide | 9 => decide
  | 10 => decide | 11 => decide | 12 => decide | 13 => decide | 14 => decide
  | n + 15 =>
    have h : hexChL (n + 15) = 'f' := rfl
    rw [h]; decide

theorem hexChU_benign (d : Nat) : hexChU d ≠ '<' ∧ hexChU d ≠ '"' := by
  match d with
  | 0 => decide | 1 => decide | 2 => decide | 3 => decide | 4 => decide
  | 5 => decide | 6 => decide | 7 => decide | 8 => decide | 9 => decide
  | 10 => decide | 11 => decide | 12 => decide | 13 => decide | 14 => decide
  | n + 15 =>
    have h : hexChU (n + 15) = 'F' := rfl
    rw [h]; decide

theorem natHexGo_append (fuel : Nat) :
    ∀ (n : Nat) (acc : List Char),
      natHexGo fuel n acc = natHexGo fuel n [] ++ acc := by
  induction fuel with
  | zero => intro n acc; simp [natHexGo]
  | succ fuel ih =>
    intro n acc
    by_cases h : n = 0
    · simp [natHexGo, h]
    · rw [natHexGo, natHexGo, if_neg h, if_neg h, ih (n / 16),
        ih (n / 16) [hexChL (n % 16)]]
      simp

theorem mem_natHexGo {c : Char} {fuel : Nat} :
    ∀ {n : Nat}, c ∈ natHexGo fuel n [] → ∃ d, c = hexChL d := by
  induction fuel with
  | zero => intro n h; simp [natHexGo] at h
  | succ fuel ih =>
    intro n h
    by_cases h0 : n = 0
    · simp [natHexGo, h0] at h
    · rw [natHexGo, if_neg h0, natHexGo_append] at h
      rcases List.mem_append.mp h with h1 | h2
      · exact ih h1
      · exact ⟨n % 16, by simpa using h2⟩

theorem mem_natHexPad2 {c : Char} {n : Nat} :
    c ∈ natHexPad2 n → c = '0' ∨ ∃ d, c = hexChL d := by
  unfold natHexPad2 natHex
  intro h
  rcases Decidable.em (n < 16) with h16 | h16 <;> simp [h16] at h
  · rcases h with h | h
    · exact .inl h
    · rcases Decidable.em (n = 0) with h0 | h0 <;> simp [h0] at h
      · exact .inl h
      · exact .inr (mem_natHexGo h)
  · rcases Decidable.em (n = 0) with h0 | h0 <;> simp [h0] at h
    · omega
    · exact .inr (mem_natHexGo h)

theorem mem_pctByte_benign {x : Char} {b : Nat} (h : x ∈ pctByte b) :
    x ≠ '<' ∧ x ≠ '"' := by
  simp [pctByte] at h
  rcases h with h | h | h
  · subst h; exact ⟨by decide, by decide⟩
  · subst h; exact hexChU_benign _
  · subst h; exact hexChU_benign _

theorem mem_escapeHtmlChar_benign {x c : Char} (h : x ∈ escapeHtmlChar c) :
    x ≠ '<' ∧ x ≠ '"' := by
  unfold escapeHtmlChar at h
  by_cases h1 : htmlSafe c
  · simp [h1] at h
    subst h
    constructor <;> intro hc <;> rw [hc] at h1 <;> exact absurd h1 (by decide)
  · simp only [h1, if_false] at h
    by_cases h2 : c = '&'
    · simp only [h2, if_true, if_pos rfl] at h
      have : ("&amp;".toList) = ['&', 'a', 'm', 'p', ';'] := rfl
      rw [this] at h
      simp at h
      rcases h with h | h | h | h | h <;> subst h <;> exact ⟨by decide, by decide⟩
    · simp only [h2, if_false] at h
      by_cases h3 : c = '<'
      · simp only [h3, if_pos rfl] at h
        have : ("&lt;".toList) = ['&', 'l', 't', ';'] := rfl
        rw [this] at h
        simp at h
        rcases h with h | h | h | h <;> subst h <;> exact ⟨by decide, by decide⟩
      · simp only [h3, if_false] at h
        by_cases h4 : c = '>'
        · simp only [h4, if_pos rfl] at h
          have : ("&gt;".toList) = ['&', 'g', 't', ';'] := rfl
          rw [this] at h
          simp at h
          rcases h with h | h | h | h <;> subst h <;> exact ⟨by decide, by decide⟩
        · simp only [h4, if_false] at h
          by_cases h5 : c = '"'
          · simp only [h5, if_pos rfl] at h
            have : ("&quot;".toList) = ['&', 'q', 'u', 'o', 't', ';'] := rfl
            rw [this] at h
            simp at h
            rcases h with h | h | h | h | h | h <;> subst h <;>
              exact ⟨by decide, by decide⟩
          · simp only [h5, if_false] at h
            by_cases h6 : c.toNat ≥ 256 <;> simp only [h6, if_true, if_false] at h
            · simp at h
              rcases h with h | h | h
              · subst h; exact ⟨by decide, by decide⟩
              · subst h; exact ⟨by decide, by decide⟩
              · rcases h with h | h
                · obtain ⟨d, -, hd⟩ := mem_natDigits h
                  subst hd
                  exact ⟨digitCh_ne_lt d, digitCh_ne_quot d⟩
                · subst h
                  exact ⟨by decide, by decide⟩
            · simp at h
              rcases h with h | h | h | h
              · subst h; exact ⟨by decide, by decide⟩
              · subst h; exact ⟨by decide, by decide⟩
              · subst h; exact ⟨by decide, by decide⟩
              · rcases h with h | h
                · rcases mem_natHexPad2 h with h0 | ⟨d, hd⟩
                  · subst h0; exact ⟨by decide, by decide⟩
                  · subst hd; exact hexChL_benign d
                · subst h
                  exact ⟨by decide, by decide⟩

theorem mem_escapeHtml_benign {x : Char} {s : String}
    (h : x ∈ (escapeHtml s).toList) : x ≠ '<' ∧ x ≠ '"' := by
  have : (escapeHtml s).toList = (s.toList.map escapeHtmlChar).flatten := rfl
  rw [this] at h
  obtain ⟨l, hl, hx⟩ := List.mem_flatten.mp h
  obtain ⟨c, -, hc⟩ := List.mem_map.mp hl
  exact mem_escapeHtmlChar_benign (hc ▸ hx)

theorem mem_encodeURIComponent_benign {x : Char} {s : String}
    (h : x ∈ (encodeURIComponent s).toList) : x ≠ '<' ∧ x ≠ '"' := by
  have : (encodeURIComponent s).toList =
      (s.toList.map fun c =>
        if uriUnreserved c then [c]
        else (utf8Bytes c).map pctByte |>.flatten).flatten := rfl
  rw [this] at h
  obtain ⟨l, hl, hx⟩ := List.mem_flatten.mp h
  obtain ⟨c, -, hc⟩ := List.mem_map.mp hl
  subst hc
  by_cases hu : uriUnreserved c
  · simp [hu] at hx
    subst hx
    constructor <;> intro hc <;> rw [hc] at hu <;> exact absurd hu (by decide)
  · simp only [hu, if_false] at hx
    obtain ⟨l2, hl2, hx2⟩ := List.mem_flatten.mp hx
    obtain ⟨b, -, hb⟩ := List.mem_map.mp hl2
    exact mem_pctByte_benign (hb ▸ hx2)

theorem mem_replaceAll {x : Char} {pat rep : List Char} :
    ∀ l, x ∈ replaceAll l pat rep → x ∈ l ∨ x ∈ rep
  | l, h => by
    match l with
    | [] => simp [replaceAll] at h
    | c :: rest =>
      rw [replaceAll] at h
      by_cases hp : pat ≠ [] ∧ pat.isPrefixOf (c :: rest)
      · rw [dif_pos hp] at h
        rcases List.mem_append.mp h with h1 | h2
        · exact .inr h1
        · rcases mem_replaceAll ((c :: rest).drop pat.length) h2 with h3 | h3
          · exact .inl (List.mem_of_mem_drop h3)
          · exact .inr h3
      · rw [dif_neg hp] at h
        rcases List.mem_cons.mp h with h1 | h2
        · exact .inl (by simp [h1])
        · rcases mem_replaceAll rest h2 with h3 | h3
          · exact .inl (List.mem_cons_of_mem _ h3)
          · exact .inr h3
  termination_by l => l.length
  decreasing_by
  · simp only [List.length_drop]
    have : pat.length ≠ 0 := fun hlen => hp.1 (List.length_eq_zero.mp hlen)
    simp [List.length_cons]
    omega
  · simp [List.length_cons]

theorem mem_pathEncode_benign {x : Char} {s : String}
    (h : x ∈ (pathEncode s).toList) : x ≠ '<' ∧ x ≠ '"' := by
  have hrep : (pathEncode s).toList =
      replaceAll (replaceAll (encodeURIComponent s).toList "%2F".toList ['/'])
        "%5C".toList ['\\'] := rfl
  rw [hrep] at h
  rcases mem_replaceAll _ h with h1 | h1
  · rcases mem_replaceAll _ h1 with h2 | h2
    · exact mem_encodeURIComponent_benign h2
    · simp at h2
      subst h2
      exact ⟨by decide, by decide⟩
  · simp at h1
    subst h1
    exact ⟨by decide, by decide⟩

/-- Occurrences of a character in a string. -/
def countCh (c : Char) (s : String) : Nat := s.toList.count c

theorem countCh_append (c : Char) (a b : String) :
    countCh c (a ++ b) = countCh c a + countCh c b := by
  simp [countCh, String.toList, String.data_append, List.count_append]

theorem countCh_escapeHtml_lt (s : String) : countCh '<' (escapeHtml s) = 0 :=
  List.count_eq_zero.mpr (fun h => (mem_escapeHtml_benign h).1 rfl)

theorem countCh_escapeHtml_quot (s : String) : countCh '"' (escapeHtml s) = 0 :=
  List.count_eq_zero.mpr (fun h => (mem_escapeHtml_benign h).2 rfl)

theorem countCh_pathEncode_lt (s : String) : countCh '<' (pathEncode s) = 0 :=
  List.count_eq_zero.mpr (fun h => (mem_pathEncode_benign h).1 rfl)

theorem countCh_pathEncode_quot (s : String) : countCh '"' (pathEncode s) = 0 :=
  List.count_eq_zero.mpr (fun h => (mem_pathEncode_benign h).2 rfl)

/-- Character count of the entry fold of `generateListing`: each shown
entry contributes exactly the count of the fixed markup, independently of
the entry's name. -/
theorem listing_fold_count (ch : Char)
    (henc : ∀ s, countCh ch (pathEncode s) = 0)
    (hesc : ∀ s, countCh ch (escapeHtml s) = 0)
    (mk : String → String) (showHidden : Bool) :
    ∀ (files : List String) (html : String),
      countCh ch (files.foldl (fun html file =>
        if showHidden ∨ ¬isFileHidden file then
          html ++ "<li><a href=\"" ++ pathEncode (mk file) ++
            "\">" ++ escapeHtml file ++ "</a></li>"
        else html) html) =
      countCh ch html +
        (countCh ch "<li><a href=\"" + countCh ch "\">" + countCh ch "</a></li>") *
          (files.filter (fun f => showHidden ∨ ¬isFileHidden f)).length := by
  intro files
  induction files with
  | nil => intro html; simp
  | cons f rest ih =>
    intro html
    rw [List.foldl_cons]
    by_cases hf : showHidden ∨ ¬isFileHidden f
    · rw [if_pos hf]
      rw [ih]
      rw [countCh_append, countCh_append, countCh_append, countCh_append,
        countCh_append, henc, hesc]
      have : (List.filter (fun f => decide (showHidden = true ∨ ¬isFileHidden f = true))
          (f :: rest)).length =
          (List.filter (fun f => decide (showHidden = true ∨ ¬isFileHidden f = true))
            rest).length + 1 := by
        have hf2 : showHidden = true ∨ isFileHidden f = false := by
          rcases hf with h | h
          · exact .inl h
          · exact .inr (by simpa using h)
        simp [List.filter_cons, hf2]
      simp only [this]
      ring
    · rw [if_neg hf]
      rw [ih]
      have : (List.filter (fun f => decide (showHidden = true ∨ ¬isFileHidden f = true))
          (f :: rest)).length =
          (List.filter (fun f => decide (showHidden = true ∨ ¬isFileHidden f = true))
            rest).length := by
        have hf2 : ¬(showHidden = true ∨ isFileHidden f = false) := by
          intro hcon
          apply hf
          rcases hcon with h | h
          · exact .inl h
          · exact .inr (by simp [h])
        simp [List.filter_cons, hf2]
      simp only [this]

/-! ## Header-lookup helpers -/

theorem lookup_filter_ne {hs : List (String × String)} {k k' : String}
    (h : k' ≠ k) :
    (hs.filter (fun p => p.1 != k)).lookup k' = hs.lookup k' := by
  induction hs with
  | nil => simp
  | cons a t ih =>
    obtain ⟨ak, av⟩ := a
    by_cases ha : ak = k
    · subst ha
      rw [List.filter_cons, if_neg (by simp)]
      rw [ih]
      have e : (k' == ak) = false := beq_eq_false_iff_ne.mpr h
      simp [List.lookup, e]
    · rw [List.filter_cons, if_pos (by simpa using ha)]
      by_cases hk : k' = ak
      · subst hk
        simp [List.lookup]
      · have e : (k' == ak) = false := beq_eq_false_iff_ne.mpr hk
        simp [List.lookup, e, ih]

theorem lookup_setHeader_same (hs : List (String × String)) (k v : String) :
    (setHeader hs k v).lookup k = some v := by
  simp [setHeader, List.lookup]

theorem lookup_setHeader_other (hs : List (String × String)) {k k' : String}
    (v : String) (h : k' ≠ k) :
    (setHeader hs k v).lookup k' = hs.lookup k' := by
  unfold setHeader
  have e : (k' == k) = false := beq_eq_false_iff_ne.mpr h
  simp [List.lookup, e, lookup_filter_ne h]

/-! ## Claim theorems -/

/-- C1: with confinement enabled with root directory `R` (the confine
option resolved against the route's `relativeTo`), if the requested path —
normalized when absolute, joined to `R` when relative — does not have `R`
as a prefix, then the source path becomes `null` and preparing the file
response fails `Forbidden` with data `EACCES`, and no filesystem event (in
particular no open) is performed for the request, whatever the filesystem
would have answered. -/
theorem C1_confine_escape_forbidden (relativeTo confine p : String)
    (settings : PrepSettings) (headers0 : List (String × String))
    (openRes : Except SysErr Nat) (fstatRes : Nat → Except SysErr StatInfo)
    (mimeType : Option String) (toUTC : Int → String)
    (etagApply : Except Boom (Option String))
    (hesc : (pathResolve relativeTo confine).toList.isPrefixOf
      (if isAbsolute p then pathNormalize p
       else pathJoin (pathResolve relativeTo confine) p).toList = false) :
    responsePath relativeTo (some confine) p = none ∧
    (prepare (responsePath relativeTo (some confine) p) settings headers0
      openRes fstatRes mimeType toUTC etagApply).2.1 =
      .error (.forbidden (some "EACCES")) ∧
    (prepare (responsePath relativeTo (some confine) p) settings headers0
      openRes fstatRes mimeType toUTC etagApply).2.2 = [] := by
  have hnone : responsePath relativeTo (some confine) p = none := by
    unfold responsePath
    simp only [hesc]
    simp
  refine ⟨hnone, ?_, ?_⟩ <;> rw [hnone] <;> rfl

/-- Witness for C1 at a concrete escape: root `/var/www`, request
`../secret`. -/
theorem C1_confine_escape_forbidden_witness :
    ((pathResolve "/var/www" ".").toList.isPrefixOf
      (if isAbsolute "../secret" then pathNormalize "../secret"
       else pathJoin (pathResolve "/var/www" ".") "../secret").toList = false) ∧
    responsePath "/var/www" (some ".") "../secret" = none ∧
    (prepare (responsePath "/var/www" (some ".") "../secret")
      ⟨none, none⟩ [] (.error .ENOENT) (fun _ => .error .ENOENT) none
      (fun _ => "") (.ok none)).2.1 = .error (.forbidden (some "EACCES")) ∧
    (prepare (responsePath "/var/www" (some ".") "../secret")
      ⟨none, none⟩ [] (.error .ENOENT) (fun _ => .error .ENOENT) none
      (fun _ => "") (.ok none)).2.2 = [] :=
  ⟨by decide,
    C1_confine_escape_forbidden "/var/www" "." "../secret" ⟨none, none⟩ []
      (.error .ENOENT) (fun _ => .error .ENOENT) none (fun _ => "") (.ok none)
      (by decide)⟩

/-- C2: for concurrent hash-mode fingerprint requests sharing a cache key
that miss the cache, (a) in any run of the machine containing no completion
for the key the hash computation is started at most once — late arrivals
join the pending computation instead; and (b) a completion for a pending
key removes the pending entry (the post-state no longer holds it) and then
releases exactly the key's waiters, every one with the same shared outcome,
the removal event preceding every release event in the trace. -/
theorem C2_coalesced_hash_once :
    (∀ (as : List HAction) (key : String),
      (∀ a ∈ as, isCompleteFor key a = false) →
      startedCount key (hrun as).trace ≤ 1) ∧
    (∀ (s : HState) (key : String) (out : HOutcome), key ∈ s.pending →
      (hstep s (.complete key out)).pending =
        s.pending.filter (fun k => decide (k ≠ key)) ∧
      key ∉ (hstep s (.complete key out)).pending ∧
      (hstep s (.complete key out)).trace = s.trace ++
        (match out with
          | .ok e => [HEvent.stored key e]
          | .failed _ => []) ++ [HEvent.removed key] ++
        ((s.waiters.filter (fun w => decide (w.2 = key))).map
          (fun w => HEvent.resolved w.1 out))) := by
  constructor
  · intro as key hnc
    have hinit : StartInv key hinit := by
      constructor
      · simp [startedCount, hinit]
      · intro h
        simp [startedCount, hinit] at h
    exact (foldl_startInv key as Inert.hinit hinit hnc).1
  · intro s key out hp
    refine ⟨?_, ?_, ?_⟩
    · simp [hstep, hp]
    · simp [hstep, hp]
    · simp [hstep, hp]

/-- Witness for C2: two concurrent arrivals for one key start a single
computation, and its completion clears the pending entry and releases both
waiters with the shared fingerprint. -/
theorem C2_coalesced_hash_once_witness :
    startedCount "k" (hrun [.arrive 1 "k", .arrive 2 "k"]).trace ≤ 1 ∧
    ((hstep ⟨[], ["k"], [(1, "k"), (2, "k")], []⟩
        (.complete "k" (.ok "h"))).pending =
      (["k"].filter (fun k => decide (k ≠ "k"))) ∧
    "k" ∉ (hstep ⟨[], ["k"], [(1, "k"), (2, "k")], []⟩
        (.complete "k" (.ok "h"))).pending ∧
    (hstep ⟨[], ["k"], [(1, "k"), (2, "k")], []⟩
        (.complete "k" (.ok "h"))).trace = ([] : List HEvent) ++
        [HEvent.stored "k" "h"] ++ [HEvent.removed "k"] ++
        (([(1, "k"), (2, "k")].filter (fun w => decide (w.2 = "k"))).map
          (fun w => HEvent.resolved w.1 (.ok "h")))) :=
  ⟨C2_coalesced_hash_once.1 [.arrive 1 "k", .arrive 2 "k"] "k" (by decide),
    C2_coalesced_hash_once.2 ⟨[], ["k"], [(1, "k"), (2, "k")], []⟩ "k"
      (.ok "h") (by decide)⟩

/-- C3: whenever response preparation fails after the descriptor is open,
the descriptor is closed before the error propagates and the handle owns no
descriptor: (a) `File.stat` on an `fstat` failure closes the handle and
propagates the wrapped error; (b) `File.stat` on a directory closes the
handle and fails `forbidden` with code `EISDIR`; (c) `internals.prepare` on
a fingerprinting (`Etag.apply`) failure closes the file-descriptor — the
close event follows the open in the trace — and returns the error with no
descriptor retained. -/
theorem C3_close_before_error :
    (∀ (f : FsFile) (n : Nat) (e : SysErr), f.fd = some n →
      (fileStat f (.error e)).1.fd = none ∧
      (fileStat f (.error e)).2.1 = .error (.internalErr "Failed to stat file") ∧
      (fileStat f (.error e)).2.2 = [.fsFstat n, .fsClose n]) ∧
    (∀ (f : FsFile) (n : Nat) (st : StatInfo), f.fd = some n →
      st.isDirectory = true →
      (fileStat f (.ok st)).1.fd = none ∧
      (fileStat f (.ok st)).2.1 = .error (.forbidden (some "EISDIR")) ∧
      (fileStat f (.ok st)).2.2 = [.fsFstat n, .fsClose n]) ∧
    (∀ (p : String) (settings : PrepSettings) (headers0 : List (String × String))
      (fd : Nat) (st : StatInfo) (fstatRes : Nat → Except SysErr StatInfo)
      (mimeType : Option String) (toUTC : Int → String) (err : Boom),
      fstatRes fd = .ok st → st.isDirectory = false →
      (prepare (some p) settings headers0 (.ok fd) fstatRes mimeType toUTC
        (.error err)).1.fd = none ∧
      (prepare (some p) settings headers0 (.ok fd) fstatRes mimeType toUTC
        (.error err)).2.1 = .error err ∧
      (prepare (some p) settings headers0 (.ok fd) fstatRes mimeType toUTC
        (.error err)).2.2 = [.fsOpen p, .fsFstat fd, .fsClose fd]) := by
  refine ⟨?_, ?_, ?_⟩
  · intro f n e hfd
    obtain ⟨path, fd⟩ := f
    simp at hfd
    subst hfd
    simp [fileStat]
  · intro f n st hfd hdir
    obtain ⟨path, fd⟩ := f
    simp at hfd
    subst hfd
    simp [fileStat, hdir]
  · intro p settings headers0 fd st fstatRes mimeType toUTC err hstat hdir
    simp [prepare, openStat, hstat, hdir]

/-- Witness for C3 at concrete handles: an `fstat` error, a directory stat,
and an etag failure during preparation. -/
theorem C3_close_before_error_witness :
    ((⟨"/d/f", some 7⟩ : FsFile).fd = some 7 ∧
      (fileStat ⟨"/d/f", some 7⟩ (.error .EACCES)).1.fd = none ∧
      (fileStat ⟨"/d/f", some 7⟩ (.error .EACCES)).2.1 =
        .error (.internalErr "Failed to stat file") ∧
      (fileStat ⟨"/d/f", some 7⟩ (.error .EACCES)).2.2 =
        [.fsFstat 7, .fsClose 7]) ∧
    ((fileStat ⟨"/d", some 8⟩ (.ok ⟨1, 0, 0, true⟩)).1.fd = none ∧
      (fileStat ⟨"/d", some 8⟩ (.ok ⟨1, 0, 0, true⟩)).2.1 =
        .error (.forbidden (some "EISDIR")) ∧
      (fileStat ⟨"/d", some 8⟩ (.ok ⟨1, 0, 0, true⟩)).2.2 =
        [.fsFstat 8, .fsClose 8]) ∧
    ((prepare (some "/d/f") ⟨none, none⟩ [] (.ok 9)
        (fun _ => .ok ⟨1, 5, 0, false⟩) none (fun _ => "")
        (.error (.internalErr "Failed to hash file"))).1.fd = none ∧
      (prepare (some "/d/f") ⟨none, none⟩ [] (.ok 9)
        (fun _ => .ok ⟨1, 5, 0, false⟩) none (fun _ => "")
        (.error (.internalErr "Failed to hash file"))).2.1 =
        .error (.internalErr "Failed to hash file") ∧
      (prepare (some "/d/f") ⟨none, none⟩ [] (.ok 9)
        (fun _ => .ok ⟨1, 5, 0, false⟩) none (fun _ => "")
        (.error (.internalErr "Failed to hash file"))).2.2 =
        [.fsOpen "/d/f", .fsFstat 9, .fsClose 9]) :=
  ⟨⟨rfl, C3_close_before_error.1 ⟨"/d/f", some 7⟩ 7 .EACCES rfl⟩,
    C3_close_before_error.2.1 ⟨"/d", some 8⟩ 8 ⟨1, 0, 0, true⟩ rfl rfl,
    C3_close_before_error.2.2 "/d/f" ⟨none, none⟩ [] 9 ⟨1, 5, 0, false⟩
      (fun _ => .ok ⟨1, 5, 0, false⟩) none (fun _ => "")
      (.internalErr "Failed to hash file") rfl rfl⟩

/-- C4 counterexample: for a path containing a NUL character the code does
issue the open to the filesystem layer — the classification to `notFound`
only happens in the error handler after `Fs.open` was called — refuting the
claim's "the path is never attempted against the filesystem". Both
`File.open` of `lib/fs.js` and `internals.openStat` of `lib/file.js` emit
the open event for the NUL path. -/
theorem C4_nul_counterexample :
    ((fileOpen ⟨['a', Char.ofNat 0, 'b']⟩ (.error .ENOENT)).2 =
      [.fsOpen ⟨['a', Char.ofNat 0, 'b']⟩] ∧
    (openStat ⟨['a', Char.ofNat 0, 'b']⟩ (.error .ENOENT)
      (fun _ => .error .ENOENT)).2 = [.fsOpen ⟨['a', Char.ofNat 0, 'b']⟩]) ∧
    ¬((fileOpen ⟨['a', Char.ofNat 0, 'b']⟩ (.error .ENOENT)).2 = []) := by
  refine ⟨⟨?_, ?_⟩, ?_⟩ <;> decide

/-- C4 amended: for every path containing a NUL character, when the issued
open fails (as it always does for such paths, whatever the error code —
even a permission error), the failure is classified `notFound`, and exactly
one open attempt is issued to the filesystem; this holds for `File.open` of
`lib/fs.js` and for `internals.openStat` of `lib/file.js`. -/
theorem C4_nul_notFound (p : String) (e : SysErr)
    (hnul : p.toList.contains nulChar = true) :
    (fileOpen p (.error e)).1 = .error .notFound ∧
    (fileOpen p (.error e)).2 = [.fsOpen p] ∧
    ∀ fstatRes : Nat → Except SysErr StatInfo,
      (openStat p (.error e) fstatRes).1 = .error .notFound ∧
      (openStat p (.error e) fstatRes).2 = [.fsOpen p] := by
  have hm : nulChar ∈ p.data := by simpa using hnul
  refine ⟨?_, ?_, fun fstatRes => ⟨?_, ?_⟩⟩ <;>
    simp [fileOpen, openStat, hm]

/-- Witness for C4 (amended) at a NUL path failing with a permission
error: still classified `notFound`. -/
theorem C4_nul_notFound_witness :
    ((⟨['a', Char.ofNat 0]⟩ : String).toList.contains nulChar = true) ∧
    (fileOpen ⟨['a', Char.ofNat 0]⟩ (.error .EACCES)).1 = .error .notFound ∧
    (fileOpen ⟨['a', Char.ofNat 0]⟩ (.error .EACCES)).2 =
      [.fsOpen ⟨['a', Char.ofNat 0]⟩] ∧
    ∀ fstatRes : Nat → Except SysErr StatInfo,
      (openStat ⟨['a', Char.ofNat 0]⟩ (.error .EACCES) fstatRes).1 =
        .error .notFound ∧
      (openStat ⟨['a', Char.ofNat 0]⟩ (.error .EACCES) fstatRes).2 =
        [.fsOpen ⟨['a', Char.ofNat 0]⟩] :=
  ⟨by decide, C4_nul_notFound ⟨['a', Char.ofNat 0]⟩ .EACCES (by decide)⟩

/-- C5: the hash-mode fingerprint cache key is the dash-join of path,
inode, size and mtime in epoch milliseconds, so (a) for a fixed path and
inode, two keys agree only when both the size and the mtime agree — any
change to either produces a different key; and (b) an arrival finding the
key resident in the cache resolves immediately with the cached fingerprint
unchanged: the state is untouched (no pending registration, no hash start)
and the only event is the cache hit carrying the stored value. -/
theorem C5_cachekey_identity :
    (∀ (p : String) (ino s s' : Nat) (m m' : Int),
      cachekey p ino s m = cachekey p ino s' m' → s = s' ∧ m = m') ∧
    (∀ (st : HState) (rid : Nat) (key e : String),
      st.cache.lookup key = some e →
      hstep st (.arrive rid key) = { st with trace := st.trace ++ [.hit rid e] }) := by
  constructor
  · intro p ino s s' m m' h
    have hd := congrArg String.data h
    have hmk : ∀ l : List Char, (String.mk l).data = l := fun _ => rfl
    have hdash : ("-" : String).data = ['-'] := rfl
    simp only [cachekey, String.data_append, natStr, intStr, hmk, hdash,
      List.append_assoc, List.singleton_append] at hd
    have h1 := List.append_cancel_left hd
    have h2 := ((List.cons.injEq _ _ _ _).mp h1).2
    have h3 := List.append_cancel_left h2
    have h4 := ((List.cons.injEq _ _ _ _).mp h3).2
    obtain ⟨hs, hm⟩ := splitDash (dash_not_mem_natDigits s)
      (dash_not_mem_natDigits s') h4
    exact ⟨natDigits_injective hs, intDigits_injective hm⟩
  · intro st rid key e h
    simp [hstep, h]

/-- Witness for C5: the key of path `f`, inode 1, size 2, mtime 3, and a
cache hit on a one-entry cache. -/
theorem C5_cachekey_identity_witness :
    (cachekey "f" 1 2 3 = cachekey "f" 1 2 3 → (2 : Nat) = 2 ∧ (3 : Int) = 3) ∧
    ((⟨[("k", "etag1")], [], [], []⟩ : HState).cache.lookup "k" = some "etag1" ∧
      hstep ⟨[("k", "etag1")], [], [], []⟩ (.arrive 5 "k") =
        { (⟨[("k", "etag1")], [], [], []⟩ : HState) with
            trace := [] ++ [.hit 5 "etag1"] }) :=
  ⟨C5_cachekey_identity.1 "f" 1 2 2 3 3,
    ⟨by decide, C5_cachekey_identity.2 ⟨[("k", "etag1")], [], [], []⟩ 5 "k"
      "etag1" (by decide)⟩⟩

/-- C6: when the range header parses against the known content length `L`
to exactly one range `{from, to}` (gates as in the code: ranges enabled for
the route, a range header present, a non-zero known length, no failing
`if-range` precondition, and no on-the-fly content encoding), the response
becomes 206, the content length becomes `to - from + 1`, a
`content-range: bytes <from>-<to>/<L>` header is set, and the body stream
is created with `start = from` and `end = to`, the descriptor transferring
to it. -/
theorem C6_single_range (ammo : String → Nat → Option (List RangeSpec))
    (req : RangeReq) (st : RespState) (path rh : String) (fd L : Nat)
    (r : RangeSpec)
    (hfd : st.fd = some fd)
    (hen : req.rangesEnabled = true)
    (hrh : req.rangeHeader = some rh)
    (hL : st.contentLength = some L)
    (hL0 : L ≠ 0)
    (hif : req.ifRange = none ∨ req.ifRange = st.etag)
    (henc : (if req.compression ∧ req.compressible ∧
        (st.headers.lookup "content-encoding").isNone then req.acceptEncoding
      else none) = some "identity" ∨
      (if req.compression ∧ req.compressible ∧
        (st.headers.lookup "content-encoding").isNone then req.acceptEncoding
      else none) = none)
    (hammo : ammo rh L = some [r]) :
    openStream ammo req st path =
      .ok ({ st with
              code := 206,
              contentLength := some (r.rTo - r.rFrom + 1),
              headers := setHeader (setHeader st.headers "content-range"
                  ("bytes " ++ natStr r.rFrom ++ "-" ++ natStr r.rTo ++ "/" ++
                    natStr L)) "accept-ranges" "bytes",
              fd := none }, path,
            { fdesc := fd, start := r.rFrom, stop := some r.rTo }) ∧
    (setHeader (setHeader st.headers "content-range"
        ("bytes " ++ natStr r.rFrom ++ "-" ++ natStr r.rTo ++ "/" ++ natStr L))
      "accept-ranges" "bytes").lookup "content-range" =
      some ("bytes " ++ natStr r.rFrom ++ "-" ++ natStr r.rTo ++ "/" ++ natStr L) := by
  constructor
  · have hacr : addContentRange ammo req st =
        .ok ({ st with
                code := 206,
                contentLength := some (r.rTo - r.rFrom + 1),
                headers := setHeader (setHeader st.headers "content-range"
                    ("bytes " ++ natStr r.rFrom ++ "-" ++ natStr r.rTo ++ "/" ++
                      natStr L)) "accept-ranges" "bytes" }, some r) := by
      unfold addContentRange
      simp only [hen, hrh, hL, if_true]
      rw [if_pos hL0, if_pos hif, if_pos henc, hammo]
    unfold openStream
    rw [hfd, hacr]
  · rw [lookup_setHeader_other _ _ (by decide), lookup_setHeader_same]

/-- Witness for C6: a 10-byte response with `bytes=9-` parsed to the single
range 9–9 produces 206, length 1, `content-range: bytes 9-9/10`, and a
stream over bytes 9..9. -/
theorem C6_single_range_witness :
    openStream (fun _ _ => some [⟨9, 9⟩])
      ⟨true, some "bytes=9-", none, false, false, none⟩
      ⟨"/f", some 3, 200, some 10, none, []⟩ "/f" =
      .ok ({ (⟨"/f", some 3, 200, some 10, none, []⟩ : RespState) with
              code := 206,
              contentLength := some (9 - 9 + 1),
              headers := setHeader (setHeader [] "content-range"
                  ("bytes " ++ natStr 9 ++ "-" ++ natStr 9 ++ "/" ++ natStr 10))
                "accept-ranges" "bytes",
              fd := none }, "/f",
            { fdesc := 3, start := 9, stop := some 9 }) ∧
    (setHeader (setHeader ([] : List (String × String)) "content-range"
        ("bytes " ++ natStr 9 ++ "-" ++ natStr 9 ++ "/" ++ natStr 10))
      "accept-ranges" "bytes").lookup "content-range" =
      some ("bytes " ++ natStr 9 ++ "-" ++ natStr 9 ++ "/" ++ natStr 10) :=
  C6_single_range (fun _ _ => some [⟨9, 9⟩])
    ⟨true, some "bytes=9-", none, false, false, none⟩
    ⟨"/f", some 3, 200, some 10, none, []⟩ "/f" "bytes=9-" 3 10 ⟨9, 9⟩
    rfl rfl rfl rfl (by decide) (.inl rfl) (.inr (by decide)) rfl

/-- C7: when the range header fails to parse against the known content
length (the `Ammo.header` collaborator returns no ranges — malformed unit,
empty spec, inverted bounds, or `from` beyond the last byte), range
negotiation fails with a 416 error whose output headers carry
`content-range: bytes */<length>`. -/
theorem C7_unsatisfiable_range (ammo : String → Nat → Option (List RangeSpec))
    (req : RangeReq) (st : RespState) (rh : String) (L : Nat)
    (hen : req.rangesEnabled = true)
    (hrh : req.rangeHeader = some rh)
    (hL : st.contentLength = some L)
    (hL0 : L ≠ 0)
    (hif : req.ifRange = none ∨ req.ifRange = st.etag)
    (henc : (if req.compression ∧ req.compressible ∧
        (st.headers.lookup "content-encoding").isNone then req.acceptEncoding
      else none) = some "identity" ∨
      (if req.compression ∧ req.compressible ∧
        (st.headers.lookup "content-encoding").isNone then req.acceptEncoding
      else none) = none)
    (hammo : ammo rh L = none) :
    addContentRange ammo req st =
      .error ⟨416, [("content-range", "bytes */" ++ natStr L)]⟩ ∧
    (⟨416, [("content-range", "bytes */" ++ natStr L)]⟩ : BoomOut).outHeaders.lookup
      "content-range" = some ("bytes */" ++ natStr L) := by
  constructor
  · unfold addContentRange
    simp only [hen, hrh, hL, if_true]
    rw [if_pos hL0, if_pos hif, if_pos henc, hammo]
  · simp [List.lookup]

/-- Witness for C7: an inverted range `bytes=5-2` against length 10 (the
parser yields nothing) produces the 416 with `content-range: bytes */10`. -/
theorem C7_unsatisfiable_range_witness :
    addContentRange (fun _ _ => none)
      ⟨true, some "bytes=5-2", none, false, false, none⟩
      ⟨"/f", some 3, 200, some 10, none, []⟩ =
      .error ⟨416, [("content-range", "bytes */" ++ natStr 10)]⟩ ∧
    (⟨416, [("content-range", "bytes */" ++ natStr 10)]⟩ : BoomOut).outHeaders.lookup
      "content-range" = some ("bytes */" ++ natStr 10) :=
  C7_unsatisfiable_range (fun _ _ => none)
    ⟨true, some "bytes=5-2", none, false, false, none⟩
    ⟨"/f", some 3, 200, some 10, none, []⟩ "bytes=5-2" 10
    rfl rfl rfl (by decide) (.inl rfl) (.inr (by decide)) rfl

/-- C8: with compressed lookup configured (and the connection compressing)
and a request accepting gzip: (a) if the `.gz` sibling opens and stats to a
file, the primary descriptor is closed (the close event follows the sibling
open in the trace), the sibling's descriptor and size replace the primary
ones, the `content-encoding: gzip` and `vary: accept-encoding` headers are
set, and streaming proceeds on the sibling path; (b) if opening the sibling
fails, the primary file is served exactly as without lookup — no error is
raised, the only extra effect being the failed open attempt. -/
theorem C8_compressed_lookup (ammo : String → Nat → Option (List RangeSpec))
    (req : RangeReq) (st : RespState) (fdP : Nat)
    (hcomp : req.compression = true)
    (hacc : req.acceptEncoding = some "gzip")
    (hfd : st.fd = some fdP) :
    (∀ (gzFd : Nat) (gzStat : StatInfo)
      (gzFstatRes : Nat → Except SysErr StatInfo),
      gzFstatRes gzFd = .ok gzStat → gzStat.isDirectory = false →
      marshal true ammo req (.ok gzFd) gzFstatRes st =
        (openStream ammo req
          { st with
              fd := some gzFd,
              contentLength := some gzStat.size,
              headers := setHeader (setHeader st.headers "content-encoding" "gzip")
                "vary" "accept-encoding" }
          (st.path ++ ".gz"),
          [.fsOpen (st.path ++ ".gz"), .fsFstat gzFd, .fsClose fdP]) ∧
      (setHeader (setHeader st.headers "content-encoding" "gzip")
        "vary" "accept-encoding").lookup "content-encoding" = some "gzip" ∧
      (setHeader (setHeader st.headers "content-encoding" "gzip")
        "vary" "accept-encoding").lookup "vary" = some "accept-encoding") ∧
    (∀ (e : SysErr) (gzFstatRes : Nat → Except SysErr StatInfo),
      marshal true ammo req (.error e) gzFstatRes st =
        (openStream ammo req st st.path, [.fsOpen (st.path ++ ".gz")])) := by
  have hgate : ¬(¬(true : Bool) ∨ ¬req.compression ∨
      req.acceptEncoding ≠ some "gzip") := by
    simp [hcomp, hacc]
  constructor
  · intro gzFd gzStat gzFstatRes hgst hdir
    refine ⟨?_, ?_, ?_⟩
    · unfold marshal
      rw [if_neg hgate]
      simp only [openStat, hgst, hdir]
      simp only [respClose, hfd]
      simp
    · rw [lookup_setHeader_other _ _ (by decide), lookup_setHeader_same]
    · rw [lookup_setHeader_same]
  · intro e gzFstatRes
    unfold marshal
    rw [if_neg hgate]
    simp only [openStat]
    have hdot : ¬(nulChar = '.') := by decide
    have hg : ¬(nulChar = 'g') := by decide
    have hz : ¬(nulChar = 'z') := by decide
    by_cases hn : nulChar ∈ st.path.data ∨ e = SysErr.ENOENT
    · simp [hn, hdot, hg, hz]
    · by_cases hp : e = SysErr.EACCES ∨ e = SysErr.EPERM
      · simp [hn, hp, hdot, hg, hz]
      · simp [hn, hp, hdot, hg, hz]

/-- Witness for C8: a primary descriptor 3 replaced by a gzip sibling
descriptor 4 of size 70, and the silent fallback when the sibling is
missing. -/
theorem C8_compressed_lookup_witness :
    (marshal true (fun _ _ => none)
      ⟨true, none, none, true, false, some "gzip"⟩ (.ok 4)
      (fun _ => .ok ⟨1, 70, 0, false⟩)
      ⟨"/f", some 3, 200, some 100, none, []⟩ =
      (openStream (fun _ _ => none) ⟨true, none, none, true, false, some "gzip"⟩
        { (⟨"/f", some 3, 200, some 100, none, []⟩ : RespState) with
            fd := some 4,
            contentLength := some 70,
            headers := setHeader (setHeader [] "content-encoding" "gzip")
              "vary" "accept-encoding" }
        ("/f" ++ ".gz"),
        [.fsOpen ("/f" ++ ".gz"), .fsFstat 4, .fsClose 3]) ∧
      (setHeader (setHeader ([] : List (String × String)) "content-encoding" "gzip")
        "vary" "accept-encoding").lookup "content-encoding" = some "gzip" ∧
      (setHeader (setHeader ([] : List (String × String)) "content-encoding" "gzip")
        "vary" "accept-encoding").lookup "vary" = some "accept-encoding") ∧
    (marshal true (fun _ _ => none)
      ⟨true, none, none, true, false, some "gzip"⟩ (.error .ENOENT)
      (fun _ => .error .ENOENT)
      ⟨"/f", some 3, 200, some 100, none, []⟩ =
      (openStream (fun _ _ => none) ⟨true, none, none, true, false, some "gzip"⟩
        ⟨"/f", some 3, 200, some 100, none, []⟩ "/f",
        [.fsOpen ("/f" ++ ".gz")])) :=
  ⟨(C8_compressed_lookup (fun _ _ => none)
      ⟨true, none, none, true, false, some "gzip"⟩
      ⟨"/f", some 3, 200, some 100, none, []⟩ 3 rfl rfl rfl).1 4 ⟨1, 70, 0, false⟩
      (fun _ => .ok ⟨1, 70, 0, false⟩) rfl rfl,
    (C8_compressed_lookup (fun _ _ => none)
      ⟨true, none, none, true, false, some "gzip"⟩
      ⟨"/f", some 3, 200, some 100, none, []⟩ 3 rfl rfl rfl).2 .ENOENT
      (fun _ => .error .ENOENT)⟩

/-- C9: a directory-handler request whose selected sub-path is hidden —
some path component begins with `.`, excluding the bare `.` and `..` — on a
route without `showHidden` fails 404 (NotFound) with an empty event trace:
no `File.load` is attempted against any candidate base directory, whatever
the filesystem would answer. -/
theorem C9_hidden_not_found (load : String → String → LoadResult)
    (settings : DirSettings) (paths : List String)
    (selection resource : String) (hasTrailingSlash stripTrailingSlash : Bool)
    (hsel : selection ≠ "")
    (hsh : settings.showHidden = false)
    (hhid : specHidden selection = true) :
    dirHandler load settings paths selection resource hasTrailingSlash
      stripTrailingSlash = (.error 404, []) := by
  have hhid2 : isFileHidden selection = true := isFileHidden_of_specHidden hhid
  unfold dirHandler
  rw [if_pos ⟨hsel, by simp [hsh], by simp [hhid2]⟩]

/-- Witness for C9: the hidden selection `.ht/passwords` against two
candidate directories, with an oracle that would happily serve anything —
the handler still answers 404 without one load. -/
theorem C9_hidden_not_found_witness :
    ((".ht/passwords" : String) ≠ "") ∧
    (⟨false, true, true, none, ["index.html"]⟩ : DirSettings).showHidden = false ∧
    specHidden ".ht/passwords" = true ∧
    dirHandler (fun _ _ => Except.ok ()) ⟨false, true, true, none, ["index.html"]⟩
      ["/var/a", "/var/b"] ".ht/passwords" "/files/.ht/passwords" false false =
      (.error 404, []) :=
  ⟨by decide, rfl, by decide,
    C9_hidden_not_found (fun _ _ => Except.ok ())
      ⟨false, true, true, none, ["index.html"]⟩ ["/var/a", "/var/b"]
      ".ht/passwords" "/files/.ht/passwords" false false (by decide) rfl
      (by decide)⟩

/-- C10: the default directory-listing renderer HTML-escapes the displayed
location and every entry name, and percent-encodes the link targets, so the
data never contributes a raw `<` or `"` to the page: the number of `<`
characters in the generated body is exactly the number in the fixed markup
— 12 for the frame, 4 per parent link, 4 per shown entry — and the number
of `"` characters is exactly 2 per link, both independent of the contents
of the location, the decoder, and the entry names. -/
theorem C10_listing_escaped (decode : String → String)
    (resource selection : String) (hasTrailingSlash showHidden : Bool)
    (files : List String) :
    countCh '<' (generateListing decode resource selection hasTrailingSlash
        showHidden files) =
      12 + (if selection ≠ "" then 4 else 0) +
        4 * (files.filter (fun f => showHidden ∨ ¬isFileHidden f)).length ∧
    countCh '"' (generateListing decode resource selection hasTrailingSlash
        showHidden files) =
      (if selection ≠ "" then 2 else 0) +
        2 * (files.filter (fun f => showHidden ∨ ¬isFileHidden f)).length := by
  have e1 : countCh '<' "<html><head><title>" = 3 := by decide
  have e2 : countCh '<' "</title></head><body><h1>Directory: " = 4 := by decide
  have e3 : countCh '<' "</h1><ul>" = 2 := by decide
  have e4 : countCh '<' "<li><a href=\"" = 2 := by decide
  have e5 : countCh '<' "\">Parent Directory</a></li>" = 2 := by decide
  have e6 : countCh '<' "\">" = 0 := by decide
  have e7 : countCh '<' "</a></li>" = 2 := by decide
  have e8 : countCh '<' "</ul></body></html>" = 3 := by decide
  have q1 : countCh '"' "<html><head><title>" = 0 := by decide
  have q2 : countCh '"' "</title></head><body><h1>Directory: " = 0 := by decide
  have q3 : countCh '"' "</h1><ul>" = 0 := by decide
  have q4 : countCh '"' "<li><a href=\"" = 1 := by decide
  have q5 : countCh '"' "\">Parent Directory</a></li>" = 1 := by decide
  have q6 : countCh '"' "\">" = 1 := by decide
  have q7 : countCh '"' "</a></li>" = 0 := by decide
  have q8 : countCh '"' "</ul></body></html>" = 0 := by decide
  unfold generateListing
  constructor
  · rw [countCh_append]
    rw [listing_fold_count '<' countCh_pathEncode_lt countCh_escapeHtml_lt]
    by_cases hsel : selection ≠ ""
    · rw [if_pos hsel, if_pos hsel]
      simp only [countCh_append, countCh_pathEncode_lt, countCh_escapeHtml_lt,
        e1, e2, e3, e4, e5, e6, e7, e8]
      ring
    · rw [if_neg hsel, if_neg hsel]
      simp only [countCh_append, countCh_pathEncode_lt, countCh_escapeHtml_lt,
        e1, e2, e3, e4, e6, e7, e8]
      ring
  · rw [countCh_append]
    rw [listing_fold_count '"' countCh_pathEncode_quot countCh_escapeHtml_quot]
    by_cases hsel : selection ≠ ""
    · rw [if_pos hsel, if_pos hsel]
      simp only [countCh_append, countCh_pathEncode_quot, countCh_escapeHtml_quot,
        q1, q2, q3, q4, q5, q6, q7, q8]
      ring
    · rw [if_neg hsel, if_neg hsel]
      simp only [countCh_append, countCh_pathEncode_quot, countCh_escapeHtml_quot,
        q1, q2, q3, q4, q6, q7, q8]
      ring

end Inert
